import Mathlib

/-!
# Verification of the "Patterns" three-stage pipeline

A shallow embedding of the core of the repository:

* `src/app.py` — orchestrator `process_pattern`, the reasoning-marker
  stripper `strip_think_tags`, and the generic cleanup pass
  `clean_latex_formatting`;
* `src/patterns/composition.py` — `Composer.compose`,
  `Composer._parse_json_safely`, `Composer.format_latex_report` and the
  module-level `strip_think_tags`;
* `src/patterns/config.py` — `ModelFactory.get_model`.

Python strings are modeled as `List Char`.  The language-model invocations
are external effects and are modeled as oracles (explicit parameters of the
orchestrator); a stage that raises is an oracle returning `Except.error`
with the exception text.  The Python standard-library JSON codec is modeled
with numbers restricted to integers: `float` literals are outside the
embedding (the dot/exponent forms are rejected by the modeled parser and a
comment marks each such spot).
-/

/-- Python strings, modeled as lists of characters. -/
abbrev Str := List Char

/-- Converts a Lean string literal into the model string type. -/
def lit (s : String) : Str := s.data

/-- Whitespace as used by Python `str.strip` and the regex class for
whitespace, restricted to the six ASCII whitespace characters
(space, tab, newline, carriage return, vertical tab, form feed);
non-ASCII Unicode whitespace is outside the embedding. -/
def isPySpace (c : Char) : Bool :=
  c = ' ' || c = '\t' || c = '\n' || c = '\r' || c = Char.ofNat 11 || c = Char.ofNat 12

/-- Python `str.strip()`: removes leading and trailing whitespace. -/
def pyStrip (s : Str) : Str :=
  ((s.dropWhile isPySpace).reverse.dropWhile isPySpace).reverse

/-- Python `str.lower()`, restricted to ASCII letters. -/
def lowerStr (s : Str) : Str := s.map Char.toLower

/-- Python `s.startswith(p)`. -/
def startsWith : Str → Str → Bool
  | _, [] => true
  | [], _ :: _ => false
  | c :: s, p :: ps => c = p && startsWith s ps

/-- Python `s.endswith(p)`. -/
def endsWith (s p : Str) : Bool := startsWith s.reverse p.reverse

/-- Python `s.replace(old, new)` (non-overlapping, left to right), with
explicit fuel; every call site passes nonempty `old` and fuel `s.length`. -/
def pyReplaceAux (old new : Str) : Nat → Str → Str
  | 0, s => s
  | _, [] => []
  | fuel+1, c :: t =>
      if startsWith (c :: t) old then
        new ++ pyReplaceAux old new fuel ((c :: t).drop old.length)
      else
        c :: pyReplaceAux old new fuel t

/-- Python `s.replace(old, new)` for nonempty `old`. -/
def pyReplace (s old new : Str) : Str := pyReplaceAux old new s.length s

/-- Index of the leftmost occurrence of `pat` in `s`, if any. -/
def firstOcc (pat : Str) : Str → Option Nat
  | [] => if startsWith [] pat then some 0 else none
  | c :: t => if startsWith (c :: t) pat then some 0 else (firstOcc pat t).map (· + 1)

/-- Concatenation of a list of strings with a separator, Python
`sep.join(parts)`. -/
def joinSep (sep : Str) : List Str → Str
  | [] => []
  | [x] => x
  | x :: y :: xs => x ++ sep ++ joinSep sep (y :: xs)

theorem startsWith_iff (s p : Str) : startsWith s p = true ↔ ∃ t, s = p ++ t := by
  induction p generalizing s with
  | nil => simp [startsWith]
  | cons c ps ih =>
    cases s with
    | nil => simp [startsWith]
    | cons a s2 =>
      simp only [startsWith, Bool.and_eq_true, decide_eq_true_eq, ih]
      constructor
      · rintro ⟨rfl, t, rfl⟩; exact ⟨t, rfl⟩
      · rintro ⟨t, h⟩
        cases h
        exact ⟨rfl, t, rfl⟩

theorem startsWith_append_self (p t : Str) : startsWith (p ++ t) p = true :=
  (startsWith_iff _ _).mpr ⟨t, rfl⟩

theorem startsWith_of_append (a b p : Str) (h : startsWith (a ++ b) p = true)
    (hlen : p.length ≤ a.length) : startsWith a p = true := by
  obtain ⟨t, ht⟩ := (startsWith_iff _ _).mp h
  refine (startsWith_iff _ _).mpr ⟨a.drop p.length, ?_⟩
  have h1 : (a ++ b).take p.length = a.take p.length := by
    rw [List.take_append_eq_append_take]
    have : p.length - a.length = 0 := by omega
    simp [this]
  have h2 : (a ++ b).take p.length = p := by
    rw [ht, List.take_append_eq_append_take]
    simp
  have h3 : a.take p.length = p := by rw [← h1, h2]
  conv_lhs => rw [← List.take_append_drop p.length a]
  rw [h3]

theorem startsWith_split (a b p : Str) (h : startsWith (a ++ b) p = true)
    (hlen : a.length < p.length) :
    a = p.take a.length ∧ startsWith b (p.drop a.length) = true := by
  obtain ⟨t, ht⟩ := (startsWith_iff _ _).mp h
  have hpa : p.take a.length = a := by
    have h2 : (a ++ b).take a.length = a := List.take_left a b
    rw [ht, List.take_append_eq_append_take] at h2
    have : a.length - p.length = 0 := by omega
    simp only [this, List.take_zero, List.append_nil] at h2
    exact h2
  have hp : p = a ++ p.drop a.length := by
    conv_lhs => rw [← List.take_append_drop a.length p]
    rw [hpa]
  refine ⟨hpa.symm, (startsWith_iff _ _).mpr ⟨(p.drop a.length ++ t).drop (p.drop a.length).length, ?_⟩⟩
  have hb : a ++ b = a ++ (p.drop a.length ++ t) := by
    rw [ht]
    conv_lhs => rw [hp]
    simp
  have hb2 : b = p.drop a.length ++ t := by
    have := List.append_cancel_left hb
    exact this
  rw [hb2]
  simp

theorem startsWith_cons_firstOcc (s p : Str) (c : Char) (t : Str) (hs : s = c :: t)
    (h : startsWith s p = true) : firstOcc p s = some 0 := by
  subst hs
  simp [firstOcc, h]

/-- If `pat` does not occur in `a`, has no nontrivial self-overlap, and is
nonempty, then the leftmost occurrence of `pat` in `a ++ pat ++ r` is at
index `a.length`. -/
theorem firstOcc_append_pat (pat : Str) (hne : pat ≠ [])
    (hself : ∀ m, m < pat.length → 0 < m → pat.drop m ≠ pat.take (pat.length - m)) :
    ∀ (a r : Str), firstOcc pat a = none →
      firstOcc pat (a ++ (pat ++ r)) = some a.length := by
  intro a
  induction a with
  | nil =>
    intro r _
    obtain ⟨c, t, hct⟩ : ∃ c t, pat = c :: t := by
      cases pat with
      | nil => exact absurd rfl hne
      | cons c t => exact ⟨c, t, rfl⟩
    have hsw : startsWith ([] ++ (pat ++ r)) pat = true := by
      simpa using startsWith_append_self pat r
    rw [List.nil_append]
    rw [List.nil_append] at hsw
    rw [startsWith_cons_firstOcc (pat ++ r) pat c (t ++ r) (by rw [hct]; rfl) hsw]
    rfl
  | cons c a2 ih =>
    intro r hno
    have hno1 : startsWith (c :: a2) pat = false := by
      by_contra hcon
      have hcon2 : startsWith (c :: a2) pat = true := by
        cases h : startsWith (c :: a2) pat
        · exact absurd h hcon
        · rfl
      rw [startsWith_cons_firstOcc (c :: a2) pat c a2 rfl hcon2] at hno
      exact Option.noConfusion hno
    have hno2 : firstOcc pat a2 = none := by
      simp only [firstOcc, hno1, if_false, Bool.false_eq_true] at hno
      cases h : firstOcc pat a2
      · rfl
      · rw [h] at hno; simp at hno
    have hsw : startsWith ((c :: a2) ++ (pat ++ r)) pat = false := by
      by_cases hlen : pat.length ≤ (c :: a2).length
      · cases h : startsWith ((c :: a2) ++ (pat ++ r)) pat
        · rfl
        · have := startsWith_of_append (c :: a2) (pat ++ r) pat h hlen
          rw [this] at hno1
          exact absurd hno1 (by simp)
      · push_neg at hlen
        cases h : startsWith ((c :: a2) ++ (pat ++ r)) pat
        · rfl
        · obtain ⟨_, h2⟩ := startsWith_split (c :: a2) (pat ++ r) pat h hlen
          have h3 : startsWith pat (pat.drop (c :: a2).length) = true := by
            refine startsWith_of_append pat r _ h2 ?_
            simp only [List.length_drop]
            omega
          obtain ⟨t, ht⟩ := (startsWith_iff _ _).mp h3
          have h4 : pat.drop (c :: a2).length = pat.take (pat.length - (c :: a2).length) := by
            have h5 : (pat.drop (c :: a2).length).length = pat.length - (c :: a2).length := by
              simp
            conv_lhs => rw [← List.take_left (pat.drop (c :: a2).length) t, ← ht]
            rw [h5]
          exact absurd h4 (hself (c :: a2).length hlen (by simp))
    rw [List.cons_append] at hsw
    have key : firstOcc pat ((c :: a2) ++ (pat ++ r)) =
        (firstOcc pat (a2 ++ (pat ++ r))).map (· + 1) := by
      rw [List.cons_append]
      simp [firstOcc, hsw]
    rw [key, ih r hno2]
    rfl

/-- The opening reasoning marker. -/
def otag : Str := lit "<think>"

/-- The closing reasoning marker. -/
def ctag : Str := lit "</think>"

/-- One leftmost-shortest match of the regex `<think>.*?</think>` with
`re.DOTALL` (as passed to `re.sub` in `src/app.py` and
`src/patterns/composition.py`): the text before the match and the text
after it, or `none` when there is no match. -/
def findThinkMatch (s : Str) : Option (Str × Str) :=
  match firstOcc otag s with
  | none => none
  | some i =>
    match firstOcc ctag (s.drop (i + 7)) with
    | none => none
    | some j => some (s.take i, s.drop (i + 7 + j + 8))

/-- `re.sub` iteration for `strip_think_tags`, with explicit fuel; every
match removes at least fifteen characters, so fuel `s.length` is enough. -/
def stripThinkAux : Nat → Str → Str
  | 0, s => s
  | fuel+1, s =>
    match findThinkMatch s with
    | none => s
    | some (pre, rest) => pre ++ stripThinkAux fuel rest

/-- `strip_think_tags` from `src/patterns/composition.py` lines 57-68 and
`src/app.py` lines 17-21: `re.sub(r"<think>.*?</think>", "", text,
flags=re.DOTALL)`.  (The `app.py` copy first returns `""` for empty input,
which coincides with the regex result on the empty string.) -/
def strip_think_tags (s : Str) : Str := stripThinkAux s.length s

theorem findThinkMatch_nil : findThinkMatch [] = none := by decide

theorem firstOcc_some_ne_nil (pat s : Str) (i : Nat) (hpat : pat ≠ [])
    (h : firstOcc pat s = some i) : s ≠ [] := by
  intro hs
  subst hs
  cases pat with
  | nil => exact hpat rfl
  | cons c t =>
    simp [firstOcc, startsWith] at h

theorem findThinkMatch_rest_lt (s pre rest : Str)
    (h : findThinkMatch s = some (pre, rest)) : rest.length < s.length := by
  unfold findThinkMatch at h
  cases h1 : firstOcc otag s with
  | none => simp [h1] at h
  | some i =>
    simp only [h1] at h
    cases h2 : firstOcc ctag (s.drop (i + 7)) with
    | none => simp [h2] at h
    | some j =>
      simp only [h2, Option.some.injEq, Prod.mk.injEq] at h
      have hrest : rest = s.drop (i + 7 + j + 8) := h.2.symm
      have hs : s ≠ [] := firstOcc_some_ne_nil otag s i (by decide) h1
      have hlen : 0 < s.length := by
        cases s with
        | nil => exact absurd rfl hs
        | cons _ _ => simp
      rw [hrest, List.length_drop]
      omega

theorem stripThinkAux_congr : ∀ (f1 : Nat) (f2 : Nat) (s : Str),
    s.length ≤ f1 → s.length ≤ f2 → stripThinkAux f1 s = stripThinkAux f2 s := by
  intro f1
  induction f1 with
  | zero =>
    intro f2 s h1 _
    have hs : s = [] := by
      cases s with
      | nil => rfl
      | cons _ _ => simp at h1
    subst hs
    cases f2 with
    | zero => rfl
    | succ n => simp [stripThinkAux, findThinkMatch_nil]
  | succ f ih =>
    intro f2 s h1 h2
    cases f2 with
    | zero =>
      have hs : s = [] := by
        cases s with
        | nil => rfl
        | cons _ _ => simp at h2
      subst hs
      simp [stripThinkAux, findThinkMatch_nil]
    | succ g =>
      simp only [stripThinkAux]
      cases h : findThinkMatch s with
      | none => rfl
      | some pr =>
        obtain ⟨pre, rest⟩ := pr
        have hlt := findThinkMatch_rest_lt s pre rest h
        simp [ih g rest (by omega) (by omega)]

theorem strip_think_tags_no_match (s : Str) (h : findThinkMatch s = none) :
    strip_think_tags s = s := by
  unfold strip_think_tags
  cases hl : s.length with
  | zero => rfl
  | succ n => simp [stripThinkAux, h]

theorem drop_append_length (x y : Str) (n : Nat) :
    (x ++ y).drop (x.length + n) = y.drop n := by
  rw [List.drop_append_eq_append_drop]
  have h1 : x.length + n - x.length = n := by omega
  have h2 : x.drop (x.length + n) = [] := by
    apply List.drop_eq_nil_of_le
    omega
  rw [h1, h2, List.nil_append]

/-- A single left-to-right pass of the `<think>` stripper removes a whole
marker-delimited span: if the span body contains no closing marker and the
text before the span contains no opening marker, the span is deleted and
stripping continues after it. -/
theorem strip_think_removes_span (a b c : Str)
    (ha : firstOcc otag a = none) (hb : firstOcc ctag b = none) :
    strip_think_tags (a ++ otag ++ b ++ ctag ++ c) = a ++ strip_think_tags c := by
  have hoself : ∀ m, m < otag.length → 0 < m →
      otag.drop m ≠ otag.take (otag.length - m) := by decide
  have hcself : ∀ m, m < ctag.length → 0 < m →
      ctag.drop m ≠ ctag.take (ctag.length - m) := by decide
  have h1 := firstOcc_append_pat otag (by decide) hoself a (b ++ (ctag ++ c)) ha
  have h2 := firstOcc_append_pat ctag (by decide) hcself b c hb
  have h7 : otag.length = 7 := by decide
  have h8 : ctag.length = 8 := by decide
  have hd7 : (a ++ (otag ++ (b ++ (ctag ++ c)))).drop (a.length + 7) = b ++ (ctag ++ c) := by
    rw [drop_append_length a _ 7, show (7 : Nat) = otag.length + 0 from by omega,
      drop_append_length otag _ 0, List.drop_zero]
  have hdend : (a ++ (otag ++ (b ++ (ctag ++ c)))).drop (a.length + 7 + b.length + 8) = c := by
    rw [show a.length + 7 + b.length + 8 = a.length + (7 + (b.length + 8)) from by omega,
      drop_append_length a _ _, show 7 + (b.length + 8) = otag.length + (b.length + 8) from by omega,
      drop_append_length otag _ _, drop_append_length b _ 8,
      show (8 : Nat) = ctag.length + 0 from by omega, drop_append_length ctag _ 0, List.drop_zero]
  have key : findThinkMatch (a ++ (otag ++ (b ++ (ctag ++ c)))) = some (a, c) := by
    unfold findThinkMatch
    simp only [h1, hd7, h2, hdend, List.take_left]
  have hS : a ++ otag ++ b ++ ctag ++ c = a ++ (otag ++ (b ++ (ctag ++ c))) := by
    simp [List.append_assoc]
  rw [hS]
  unfold strip_think_tags
  have hlen : c.length < (a ++ (otag ++ (b ++ (ctag ++ c)))).length := by
    simp only [List.length_append, h7, h8]
    omega
  obtain ⟨n, hn⟩ : ∃ n, (a ++ (otag ++ (b ++ (ctag ++ c)))).length = n + 1 :=
    ⟨(a ++ (otag ++ (b ++ (ctag ++ c)))).length - 1, by omega⟩
  rw [hn]
  simp only [stripThinkAux, key]
  congr 1
  exact stripThinkAux_congr n c.length c (by omega) (le_refl _)

/-- C5, counterexample.  The claim asserts that `strip_think_tags` is
idempotent on every input.  It is not: deleting the leftmost-shortest span
from `<th<think></think>ink>x</think>` splices the surrounding fragments
into the new span `<think>x</think>`, which a second application removes,
so stripping twice differs from stripping once. -/
theorem claim_C5_counterexample :
    strip_think_tags (strip_think_tags (lit "<th<think></think>ink>x</think>")) ≠
      strip_think_tags (lit "<th<think></think>ink>x</think>") := by decide

/-- C5, amended.  One application of `strip_think_tags` removes every
non-overlapping leftmost-shortest marker-delimited span regardless of its
internal content (including bodies containing further opening markers),
and stripping is idempotent on every input whose once-stripped result
contains no remaining marker-delimited span; it is not idempotent in
general, because a removal can splice the surrounding text into a new
span. -/
theorem claim_C5_amended :
    (∀ a b c : Str, firstOcc otag a = none → firstOcc ctag b = none →
        strip_think_tags (a ++ otag ++ b ++ ctag ++ c) = a ++ strip_think_tags c) ∧
    (∀ s : Str, findThinkMatch (strip_think_tags s) = none →
        strip_think_tags (strip_think_tags s) = strip_think_tags s) :=
  ⟨strip_think_removes_span, fun _ h => strip_think_tags_no_match _ h⟩

/-- C5, witness: the amended theorem applied at concrete inputs. -/
theorem claim_C5_witness :
    strip_think_tags (lit "A" ++ otag ++ lit "B<think>C" ++ ctag ++ lit "D") =
      lit "A" ++ strip_think_tags (lit "D") ∧
    strip_think_tags (strip_think_tags (lit "xy")) = strip_think_tags (lit "xy") :=
  ⟨claim_C5_amended.1 (lit "A") (lit "B<think>C") (lit "D") (by decide) (by decide),
   claim_C5_amended.2 (lit "xy") (by decide)⟩

/-- JSON values as produced by Python `json.loads`, with numbers restricted
to integers: floating-point values are outside the embedding. -/
inductive JValue where
  | jnull : JValue
  | jbool : Bool → JValue
  | jnum : Int → JValue
  | jstr : Str → JValue
  | jarr : List JValue → JValue
  | jobj : List (Str × JValue) → JValue

/-- The decimal digit character for `n < 10`. -/
def digitChar (n : Nat) : Char := Char.ofNat (48 + n)

/-- ASCII decimal digit test. -/
def isDigit (c : Char) : Bool := 48 ≤ c.toNat && c.toNat ≤ 57

/-- Numeric value of a decimal digit character. -/
def digitVal (c : Char) : Nat := c.toNat - 48

/-- Lowercase hexadecimal digit character for `n < 16`. -/
def hexDigitChar (n : Nat) : Char :=
  if n < 10 then Char.ofNat (48 + n) else Char.ofNat (87 + n)

/-- Decimal digits of `n`, most significant first, with explicit fuel;
fuel greater than `n` is always enough. -/
def natToStrAux : Nat → Nat → Str → Str
  | 0, _, acc => acc
  | fuel+1, n, acc =>
      if n < 10 then digitChar n :: acc
      else natToStrAux fuel (n / 10) (digitChar (n % 10) :: acc)

/-- Python `str(n)` for a natural number. -/
def natToStr (n : Nat) : Str := natToStrAux (n + 1) n []

/-- Python `str(n)` for an integer. -/
def intToStr : Int → Str
  | .ofNat n => natToStr n
  | .negSucc n => '-' :: natToStr (n + 1)

/-- JSON serialization of one character, per Python `json.dumps`: quote,
backslash and control characters are escaped (short escapes for the five
named controls, `\u00XX` otherwise); other characters are emitted
literally (`ensure_ascii=False`; with the default `ensure_ascii=True`
Python would `\uXXXX`-escape non-ASCII characters as well — both are valid
JSON serializations of the same value). -/
def escapeChar (c : Char) : Str :=
  if c = '"' then ['\\', '"']
  else if c = '\\' then ['\\', '\\']
  else if c = '\n' then ['\\', 'n']
  else if c = '\t' then ['\\', 't']
  else if c = '\r' then ['\\', 'r']
  else if c = Char.ofNat 8 then ['\\', 'b']
  else if c = Char.ofNat 12 then ['\\', 'f']
  else if c.toNat < 32 then
    ['\\', 'u', '0', '0', hexDigitChar (c.toNat / 16), hexDigitChar (c.toNat % 16)]
  else [c]

/-- JSON escaping of a whole string body. -/
def escapeStr : Str → Str
  | [] => []
  | c :: t => escapeChar c ++ escapeStr t

/-- JSON serialization of a string, with the surrounding quotes. -/
def dumpStr (s : Str) : Str := '"' :: escapeStr s ++ ['"']

mutual
/-- Python `json.dumps` with the default separators `", "` and `": "`. -/
def dumps : JValue → Str
  | .jnull => lit "null"
  | .jbool true => lit "true"
  | .jbool false => lit "false"
  | .jnum n => intToStr n
  | .jstr s => dumpStr s
  | .jarr xs => '[' :: dumpsList xs ++ [']']
  | .jobj fs => '{' :: dumpsFields fs ++ ['}']

/-- Array elements of `json.dumps`, joined with `", "`. -/
def dumpsList : List JValue → Str
  | [] => []
  | [x] => dumps x
  | x :: y :: xs => dumps x ++ [',', ' '] ++ dumpsList (y :: xs)

/-- Object members of `json.dumps`, joined with `", "`. -/
def dumpsFields : List (Str × JValue) → Str
  | [] => []
  | [(k, v)] => dumpStr k ++ [':', ' '] ++ dumps v
  | (k, v) :: f :: fs => dumpStr k ++ [':', ' '] ++ dumps v ++ [',', ' '] ++ dumpsFields (f :: fs)
end

/-- Does `k` occur among the keys of the field list? -/
def keyOccurs (k : Str) : List (Str × JValue) → Bool
  | [] => false
  | (k2, _) :: t => (decide (k = k2)) || keyOccurs k t

mutual
/-- Every object node of the value has pairwise-distinct keys (a Python
dict can never contain a duplicate key). -/
def noDupKeysB : JValue → Bool
  | .jnull => true
  | .jbool _ => true
  | .jnum _ => true
  | .jstr _ => true
  | .jarr xs => noDupKeysList xs
  | .jobj fs => noDupKeysFields fs

/-- `noDupKeysB` over the elements of an array. -/
def noDupKeysList : List JValue → Bool
  | [] => true
  | x :: xs => noDupKeysB x && noDupKeysList xs

/-- `noDupKeysB` over the members of an object. -/
def noDupKeysFields : List (Str × JValue) → Bool
  | [] => true
  | (k, v) :: fs => !(keyOccurs k fs) && noDupKeysB v && noDupKeysFields fs
end

/-- JSON whitespace (RFC 8259, as skipped by Python `json.loads`). -/
def isJsonWs (c : Char) : Bool := c = ' ' || c = '\t' || c = '\n' || c = '\r'

/-- Skips JSON whitespace. -/
def skipWs (s : Str) : Str := s.dropWhile isJsonWs

/-- Value of a hexadecimal digit character, if it is one. -/
def hexVal (c : Char) : Option Nat :=
  if 48 ≤ c.toNat ∧ c.toNat ≤ 57 then some (c.toNat - 48)
  else if 97 ≤ c.toNat ∧ c.toNat ≤ 102 then some (c.toNat - 87)
  else if 65 ≤ c.toNat ∧ c.toNat ≤ 70 then some (c.toNat - 55)
  else none

/-- Body of a JSON string after the opening quote, per Python `json.loads`
in strict mode: raw control characters are rejected, the eight named
escapes and `\uXXXX` are decoded.  `\uXXXX` escapes carrying surrogate
values (which Python combines into astral characters) are outside the
embedding and rejected. -/
def parseStringBody : Str → Except Str (Str × Str)
  | [] => .error (lit "Unterminated string")
  | c :: t =>
    if c = '"' then .ok ([], t)
    else if c = '\\' then
      match t with
      | [] => .error (lit "Unterminated string")
      | e :: t2 =>
        if e = 'u' then
          match t2 with
          | h1 :: h2 :: h3 :: h4 :: t3 =>
            match hexVal h1, hexVal h2, hexVal h3, hexVal h4 with
            | some a, some b, some c2, some d =>
              let n := ((a * 16 + b) * 16 + c2) * 16 + d
              if 55296 ≤ n ∧ n ≤ 57343 then .error (lit "surrogate escape outside model")
              else
                match parseStringBody t3 with
                | .ok (r, rest) => .ok (Char.ofNat n :: r, rest)
                | .error e2 => .error e2
            | _, _, _, _ => .error (lit "Invalid uXXXX escape")
          | _ => .error (lit "Invalid uXXXX escape")
        else
          let dec : Option Char :=
            if e = '"' then some '"'
            else if e = '\\' then some '\\'
            else if e = '/' then some '/'
            else if e = 'b' then some (Char.ofNat 8)
            else if e = 'f' then some (Char.ofNat 12)
            else if e = 'n' then some '\n'
            else if e = 'r' then some '\r'
            else if e = 't' then some '\t'
            else none
          match dec with
          | none => .error (lit "Invalid escape")
          | some d =>
            match parseStringBody t2 with
            | .ok (r, rest) => .ok (d :: r, rest)
            | .error e2 => .error e2
    else if c.toNat < 32 then .error (lit "Invalid control character")
    else
      match parseStringBody t with
      | .ok (r, rest) => .ok (c :: r, rest)
      | .error e2 => .error e2

/-- Numeric value of a digit string. -/
def digitsToNat (ds : Str) : Nat := ds.foldl (fun a c => a * 10 + digitVal c) 0

/-- JSON integer after an optional leading minus sign, per the JSON number
grammar `-?(0|[1-9][0-9]*)`: a leading `0` is never followed by further
digits of the same numeral.  A following `.`, `e` or `E` would start a
float literal, which is outside the embedding and rejected (Python parses
it as a float). -/
def parseNumAbs (s1 : Str) (neg : Bool) : Except Str (JValue × Str) :=
  match s1.takeWhile isDigit with
  | [] => .error (lit "Expecting value")
  | d :: ds =>
    let rest := s1.dropWhile isDigit
    let p : Str × Str := if d = '0' ∧ ds ≠ [] then (['0'], ds ++ rest) else (d :: ds, rest)
    match p.2 with
    | c :: _ =>
      if c = '.' ∨ c = 'e' ∨ c = 'E' then .error (lit "float literal outside model")
      else .ok (.jnum (cond neg (-(digitsToNat p.1 : Int)) (digitsToNat p.1 : Int)), p.2)
    | [] => .ok (.jnum (cond neg (-(digitsToNat p.1 : Int)) (digitsToNat p.1 : Int)), [])

/-- JSON number parsing (integers only, see `parseNumAbs`). -/
def parseNumber (s : Str) : Except Str (JValue × Str) :=
  match s with
  | c :: t => if c = '-' then parseNumAbs t true else parseNumAbs (c :: t) false
  | [] => parseNumAbs [] false

/-- Inserting a parsed member into an object under construction, with
Python dict semantics: a duplicate key keeps its first position and takes
the latest value. -/
def insertKV : List (Str × JValue) → Str → JValue → List (Str × JValue)
  | [], k, v => [(k, v)]
  | (k2, v2) :: t, k, v => if k = k2 then (k2, v) :: t else (k2, v2) :: insertKV t k v

mutual
/-- One JSON value, per Python `json.loads`: leading whitespace is
skipped, then an object, array, string, literal or number is read.  Fuel
decreases on every recursive call; `jsonLoads` passes `2 * length + 4`,
which is more than the total number of calls any input can cause (each
object/array level and each element consumes at least one character per
two calls). -/
def parseValue : Nat → Str → Except Str (JValue × Str)
  | 0, _ => .error (lit "fuel exhausted")
  | fuel+1, s =>
    match skipWs s with
    | [] => .error (lit "Expecting value")
    | c :: t =>
      if c = '{' then parseObjStart fuel t
      else if c = '[' then parseArrStart fuel t
      else if c = '"' then
        match parseStringBody t with
        | .ok (str, rest) => .ok (.jstr str, rest)
        | .error e => .error e
      else if startsWith (c :: t) (lit "true") then .ok (.jbool true, (c :: t).drop 4)
      else if startsWith (c :: t) (lit "false") then .ok (.jbool false, (c :: t).drop 5)
      else if startsWith (c :: t) (lit "null") then .ok (.jnull, (c :: t).drop 4)
      else if c = '-' || isDigit c then parseNumber (c :: t)
      else .error (lit "Expecting value")

/-- After `[`: either an immediately closed empty array or the element
loop. -/
def parseArrStart : Nat → Str → Except Str (JValue × Str)
  | 0, _ => .error (lit "fuel exhausted")
  | fuel+1, s =>
    match skipWs s with
    | [] => parseArrLoop fuel [] []
    | c :: t => if c = ']' then .ok (.jarr [], t) else parseArrLoop fuel (c :: t) []

/-- Array element loop: value, then `]` or `,`. -/
def parseArrLoop : Nat → Str → List JValue → Except Str (JValue × Str)
  | 0, _, _ => .error (lit "fuel exhausted")
  | fuel+1, s, acc =>
    match parseValue fuel s with
    | .error e => .error e
    | .ok (v, r) =>
      match skipWs r with
      | [] => .error (lit "Expecting comma delimiter")
      | c :: t =>
        if c = ']' then .ok (.jarr (acc ++ [v]), t)
        else if c = ',' then parseArrLoop fuel t (acc ++ [v])
        else .error (lit "Expecting comma delimiter")

/-- After `{`: either an immediately closed empty object or the member
loop. -/
def parseObjStart : Nat → Str → Except Str (JValue × Str)
  | 0, _ => .error (lit "fuel exhausted")
  | fuel+1, s =>
    match skipWs s with
    | [] => parseObjLoop fuel [] []
    | c :: t => if c = '}' then .ok (.jobj [], t) else parseObjLoop fuel (c :: t) []

/-- Object member loop: quoted key, `:`, value, then `}` or `,`. -/
def parseObjLoop : Nat → Str → List (Str × JValue) → Except Str (JValue × Str)
  | 0, _, _ => .error (lit "fuel exhausted")
  | fuel+1, s, acc =>
    match skipWs s with
    | [] => .error (lit "Expecting property name")
    | c :: t =>
      if c = '"' then
        match parseStringBody t with
        | .error e => .error e
        | .ok (k, r1) =>
          match skipWs r1 with
          | [] => .error (lit "Expecting colon delimiter")
          | c2 :: r2 =>
            if c2 = ':' then
              match parseValue fuel r2 with
              | .error e => .error e
              | .ok (v, r3) =>
                match skipWs r3 with
                | [] => .error (lit "Expecting comma delimiter")
                | c3 :: t2 =>
                  if c3 = '}' then .ok (.jobj (insertKV acc k v), t2)
                  else if c3 = ',' then parseObjLoop fuel t2 (insertKV acc k v)
                  else .error (lit "Expecting comma delimiter")
            else .error (lit "Expecting colon delimiter")
      else .error (lit "Expecting property name")
end

/-- Python `json.loads`: parse one value, then require only trailing
whitespace.  Error values model the decoder errors as plain descriptors
(Python decorates them with line/column positions). -/
def jsonLoads (s : Str) : Except Str JValue :=
  match parseValue (2 * s.length + 4) s with
  | .error e => .error e
  | .ok (v, rest) => if skipWs rest = [] then .ok v else .error (lit "Extra data")

/-- The fence-stripping steps of `Composer._parse_json_safely`: strip
surrounding whitespace, peel a leading fence tagged `json`, then a bare
leading fence, then a trailing fence (`text[7:]`, `text[3:]`,
`text[:-3]`). -/
def fenceStrip (text : Str) : Str :=
  let t0 := pyStrip text
  let t1 := if startsWith t0 (lit "```json") then t0.drop 7 else t0
  let t2 := if startsWith t1 (lit "```") then t1.drop 3 else t1
  if endsWith t2 (lit "```") then t2.take (t2.length - 3) else t2

/-- `Composer._parse_json_safely` (src/patterns/composition.py lines
90-113): strip whitespace and code fences, parse as JSON; on a parse
error return the degraded schedule dictionary carrying the error message
and the unparsed text. -/
def parse_json_safely (text : Str) : JValue :=
  let t3 := fenceStrip text
  match jsonLoads t3 with
  | .ok v => v
  | .error e =>
    .jobj [(lit "original_expression", .jstr (lit "Error parsing")),
           (lit "schedule_logic", .jstr (lit "Linear")),
           (lit "score", .jarr []),
           (lit "math_narrative", .jstr (lit "Error: " ++ e)),
           (lit "raw_output", .jstr t3)]

/-- `Composer.compose` (src/patterns/composition.py lines 82-88) as a
function of the raw model output: the chain invocation is an external
effect, and once it has returned `raw`, compose strips reasoning markers
and parses; an exception raised by the invocation itself propagates out of
`compose` and is handled at the orchestrator boundary. -/
def composeFromRaw (raw : Str) : JValue := parse_json_safely (strip_think_tags raw)

/-- Python `repr` of one character inside a string literal quoted with
`q`: backslash, the quote character, and the named controls are escaped,
other control characters use `\xXX`; non-ASCII printability rules are
outside the embedding (such characters are kept literal). -/
def pyReprChar (q : Char) (c : Char) : Str :=
  if c = '\\' then ['\\', '\\']
  else if c = q then ['\\', q]
  else if c = '\n' then ['\\', 'n']
  else if c = '\r' then ['\\', 'r']
  else if c = '\t' then ['\\', 't']
  else if c.toNat < 32 || c.toNat = 127 then
    ['\\', 'x', hexDigitChar (c.toNat / 16), hexDigitChar (c.toNat % 16)]
  else [c]

/-- `pyReprChar` over a string body. -/
def pyReprStrAux (q : Char) : Str → Str
  | [] => []
  | c :: t => pyReprChar q c ++ pyReprStrAux q t

/-- Python `repr` of a string: single-quoted, except double-quoted when
the string contains a single quote and no double quote. -/
def pyReprStr (s : Str) : Str :=
  let hasSingle := s.any (fun c => c = Char.ofNat 39)
  let hasDouble := s.any (fun c => c = '"')
  let q : Char := if hasSingle && !hasDouble then '"' else Char.ofNat 39
  q :: pyReprStrAux q s ++ [q]

mutual
/-- Python `repr` of a `json.loads` result (used by f-string interpolation
of containers). -/
def pyRepr : JValue → Str
  | .jnull => lit "None"
  | .jbool true => lit "True"
  | .jbool false => lit "False"
  | .jnum n => intToStr n
  | .jstr s => pyReprStr s
  | .jarr xs => '[' :: pyReprList xs ++ [']']
  | .jobj fs => '{' :: pyReprFields fs ++ ['}']

/-- List elements of `pyRepr`, joined with `", "`. -/
def pyReprList : List JValue → Str
  | [] => []
  | [x] => pyRepr x
  | x :: y :: xs => pyRepr x ++ [',', ' '] ++ pyReprList (y :: xs)

/-- Dict members of `pyRepr`, joined with `", "`. -/
def pyReprFields : List (Str × JValue) → Str
  | [] => []
  | [(k, v)] => pyReprStr k ++ [':', ' '] ++ pyRepr v
  | (k, v) :: f :: fs => pyReprStr k ++ [':', ' '] ++ pyRepr v ++ [',', ' '] ++ pyReprFields (f :: fs)
end

/-- Python `str(v)` as used by f-string interpolation: the string itself
for strings, `repr` otherwise. -/
def pyStr : JValue → Str
  | .jstr s => s
  | v => pyRepr v

/-- C2: `compose` is total on the model output (never lets a parse
exception escape), and whenever JSON parsing of the think-tag- and
fence-stripped model output fails, the result is the degraded Schedule:
`schedule_logic = "Linear"`, `score = []`, `math_narrative` carrying the
parser error message, and the failing text in `raw_output`. -/
theorem claim_C2_parse_failure_degrades (raw e : Str)
    (h : jsonLoads (fenceStrip (strip_think_tags raw)) = .error e) :
    composeFromRaw raw =
      .jobj [(lit "original_expression", .jstr (lit "Error parsing")),
             (lit "schedule_logic", .jstr (lit "Linear")),
             (lit "score", .jarr []),
             (lit "math_narrative", .jstr (lit "Error: " ++ e)),
             (lit "raw_output", .jstr (fenceStrip (strip_think_tags raw)))] := by
  unfold composeFromRaw parse_json_safely
  simp only [h]

/-- C2, witness: the theorem applied to the concrete failing output
`"not json"`. -/
theorem claim_C2_witness :
    jsonLoads (fenceStrip (strip_think_tags (lit "not json"))) =
      .error (lit "Expecting value") ∧
    composeFromRaw (lit "not json") =
      .jobj [(lit "original_expression", .jstr (lit "Error parsing")),
             (lit "schedule_logic", .jstr (lit "Linear")),
             (lit "score", .jarr []),
             (lit "math_narrative", .jstr (lit "Error: " ++ lit "Expecting value")),
             (lit "raw_output", .jstr (fenceStrip (strip_think_tags (lit "not json"))))] :=
  ⟨rfl, claim_C2_parse_failure_degrades (lit "not json") (lit "Expecting value") rfl⟩

/-- Python dict lookup on a parsed JSON object (keys are unique in any
dict produced by `json.loads`). -/
def dictGet : List (Str × JValue) → Str → Option JValue
  | [], _ => none
  | (k2, v) :: t, k => if k = k2 then some v else dictGet t k

/-- The per-track data `format_latex_report` reads: `voice`, `symbol` and
`mass` as rendered by f-string interpolation, and the raw `formula`
string. -/
structure TrackData where
  voiceS : Str
  symbolS : Str
  massS : Str
  formula : Str

/-- Reads one `score` entry the way the table loop of
`format_latex_report` does: `track['formula']` first (it must be a string
because `.replace` is called on it), then `voice`, `symbol` and `mass`
via f-string interpolation; a missing key or a non-dict entry raises. -/
def extractTrack : JValue → Except Str TrackData
  | .jobj fs =>
    (match dictGet fs (lit "formula") with
     | none => .error (lit "KeyError: formula")
     | some fv =>
       match fv with
       | .jstr f =>
         match dictGet fs (lit "voice") with
         | none => .error (lit "KeyError: voice")
         | some vv =>
           match dictGet fs (lit "symbol") with
           | none => .error (lit "KeyError: symbol")
           | some sv =>
             match dictGet fs (lit "mass") with
             | none => .error (lit "KeyError: mass")
             | some mv => .ok ⟨pyStr vv, pyStr sv, pyStr mv, f⟩
       | _ => .error (lit "AttributeError: replace on a non-string formula"))
  | _ => .error (lit "TypeError: track indices must be integers")

/-- `extractTrack` over the whole score, stopping at the first failing
entry exactly as the `for` loop does. -/
def extractTracks : List JValue → Except Str (List TrackData)
  | [] => .ok []
  | x :: xs =>
    match extractTrack x with
    | .error e => .error e
    | .ok td =>
      match extractTracks xs with
      | .error e => .error e
      | .ok tds => .ok (td :: tds)

/-- Iterating Python `for track in score`: lists yield their elements,
strings yield their characters (as one-character strings), dicts yield
their keys; other values raise `TypeError`. -/
def scoreItems : JValue → Except Str (List JValue)
  | .jarr xs => .ok xs
  | .jstr s => .ok (s.map (fun c => .jstr [c]))
  | .jobj fs => .ok (fs.map (fun kv => .jstr kv.1))
  | _ => .error (lit "TypeError: score is not iterable")

/-- Python `composition["schedule_logic"] == name` for a string literal
`name`: true exactly when the value is that string. -/
def isLogic (v : JValue) (name : Str) : Bool :=
  match v with
  | .jstr s => decide (s = name)
  | _ => false

/-- An Orbital master-equation term at position `i`. -/
def orbitalTerm (i : Nat) (td : TrackData) : Str :=
  td.massS ++ lit " \\cdot " ++ (if i % 2 = 0 then lit "\\sin" else lit "\\cos") ++
    lit "(\\omega t) \\cdot [" ++ td.formula ++ lit "]"

/-- `orbitalTerm` over a track list with running index. -/
def orbitalTerms : Nat → List TrackData → List Str
  | _, [] => []
  | i, td :: t => orbitalTerm i td :: orbitalTerms (i + 1) t

/-- A plain `mass \cdot [formula]` term (Adversarial first track,
Linear/default tracks). -/
def linearTerm (td : TrackData) : Str :=
  td.massS ++ lit " \\cdot [" ++ td.formula ++ lit "]"

/-- The decaying first Drag term. -/
def dragFirstTerm (td : TrackData) : Str :=
  lit "(" ++ td.massS ++ lit " \\cdot e^\x7b-\\lambda t\x7d) \\cdot [" ++ td.formula ++ lit "]"

/-- A growing later Drag term. -/
def dragLaterTerm (td : TrackData) : Str :=
  lit "(" ++ td.massS ++ lit " \\cdot (1-e^\x7b-\\lambda t\x7d)) \\cdot [" ++ td.formula ++ lit "]"

/-- A subtracted later Adversarial term (note the leading ` - `). -/
def advLaterTerm (td : TrackData) : Str :=
  lit " - " ++ linearTerm td

/-- The master equation body between the `$$ ` and ` $$` delimiters,
chosen by `schedule_logic` (src/patterns/composition.py lines 143-170). -/
def masterBody (logic : JValue) (tds : List TrackData) : Str :=
  if isLogic logic (lit "Orbital") then
    lit "J(\\theta) = \\sum_\x7bt\x7d (" ++ joinSep (lit " + ") (orbitalTerms 0 tds) ++ lit ")"
  else if isLogic logic (lit "Drag") then
    let terms := match tds with
      | [] => []
      | t0 :: rest => dragFirstTerm t0 :: rest.map dragLaterTerm
    lit "J(\\theta) = \\int (" ++ joinSep (lit " + ") terms ++ lit ") dt"
  else if isLogic logic (lit "Adversarial") then
    let terms := match tds with
      | [] => []
      | t0 :: rest => linearTerm t0 :: rest.map advLaterTerm
    lit "J(\\theta) = \\max_\\pi (" ++ joinSep [] terms ++ lit ")"
  else
    lit "J(\\theta) = " ++ joinSep (lit " + ") (tds.map linearTerm)

/-- The synthesized master equation: every branch of the source wraps its
body as `$$ body $$`. -/
def masterEquation (logic : JValue) (tds : List TrackData) : Str :=
  lit "$$ " ++ masterBody logic tds ++ lit " $$"

/-- One table row; the formula has literal pipes escaped for the Markdown
table, the equation later uses the raw formula. -/
def trackRow (td : TrackData) : Str :=
  lit "| " ++ td.voiceS ++ lit " | `" ++ td.symbolS ++ lit "` | $" ++
    pyReplace td.formula (lit "|") (lit "\\|") ++ lit "$ | " ++ td.massS ++ lit " |\n"

/-- All table rows in order. -/
def trackRows : List TrackData → Str
  | [] => []
  | td :: t => trackRow td ++ trackRows t

/-- Title line, narrative line and table header of the report. -/
def reportHeader (logic : JValue) (narrativeS freqS : Str) : Str :=
  lit "### Cognitive Schedule: **" ++ pyStr logic ++ lit "**\n" ++
  lit "*" ++ narrativeS ++ lit "* (Global Accel: $\\omega=" ++ freqS ++ lit "$)\n\n" ++
  lit "| Function | Objective Class | Math Form | Mass ($m$) |\n" ++
  lit "| :--- | :--- | :--- | :---: |\n"

/-- `composition.get("schedule_logic", "Linear")`. -/
def reportLogic (fs : List (Str × JValue)) : JValue :=
  (dictGet fs (lit "schedule_logic")).getD (.jstr (lit "Linear"))

/-- The rendered `composition.get("math_narrative", "")`. -/
def reportNarrativeS (fs : List (Str × JValue)) : Str :=
  match dictGet fs (lit "math_narrative") with
  | some v => pyStr v
  | none => []

/-- The rendered `composition.get("global_frequency", 1.0)` (the absent
default `1.0` is a float and renders as `"1.0"`). -/
def reportFreqS (fs : List (Str × JValue)) : Str :=
  match dictGet fs (lit "global_frequency") with
  | some v => pyStr v
  | none => lit "1.0"

/-- `Composer.format_latex_report` (src/patterns/composition.py lines
115-171) on a parsed dictionary: reads `schedule_logic`, `math_narrative`,
`global_frequency` and `score` with their `.get` defaults, renders the
table and the master equation; any exception of the loops is an `error`. -/
def format_latex_report (fs : List (Str × JValue)) : Except Str Str :=
  let score := (dictGet fs (lit "score")).getD (.jarr [])
  match scoreItems score with
  | .error e => .error e
  | .ok items =>
    match extractTracks items with
    | .error e => .error e
    | .ok tds =>
      .ok (reportHeader (reportLogic fs) (reportNarrativeS fs) (reportFreqS fs) ++
           trackRows tds ++
           lit "\n**Intercalation Dynamics:**\n" ++ masterEquation (reportLogic fs) tds)

/-- A `score` entry on which the table loop cannot raise: a dict with a
string `formula` and with `voice`, `symbol` and `mass` present (the
data-model types of the spec; `voice`, `symbol` and `mass` may hold any
value, since they are only f-string-rendered). -/
def wellFormedTrackB : JValue → Bool
  | .jobj fs =>
    (match dictGet fs (lit "formula") with
     | some (.jstr _) => true
     | _ => false) &&
    (dictGet fs (lit "voice")).isSome &&
    ((dictGet fs (lit "symbol")).isSome && (dictGet fs (lit "mass")).isSome)
  | _ => false

theorem extractTrack_ok (v : JValue) (h : wellFormedTrackB v = true) :
    ∃ td, extractTrack v = .ok td := by
  cases v with
  | jobj fs =>
    simp only [wellFormedTrackB, Bool.and_eq_true] at h
    obtain ⟨⟨hf, hv⟩, hs, hm⟩ := h
    obtain ⟨vv, hvv⟩ := Option.isSome_iff_exists.mp hv
    obtain ⟨sv, hsv⟩ := Option.isSome_iff_exists.mp hs
    obtain ⟨mv, hmv⟩ := Option.isSome_iff_exists.mp hm
    cases hff : dictGet fs (lit "formula") with
    | none => rw [hff] at hf; simp at hf
    | some fv =>
      cases fv with
      | jstr f =>
        refine ⟨⟨pyStr vv, pyStr sv, pyStr mv, f⟩, ?_⟩
        simp [extractTrack, hff, hvv, hsv, hmv]
      | jnull => rw [hff] at hf; simp at hf
      | jbool b => rw [hff] at hf; simp at hf
      | jnum n => rw [hff] at hf; simp at hf
      | jarr xs => rw [hff] at hf; simp at hf
      | jobj fs2 => rw [hff] at hf; simp at hf
  | jnull => simp [wellFormedTrackB] at h
  | jbool b => simp [wellFormedTrackB] at h
  | jnum n => simp [wellFormedTrackB] at h
  | jstr s => simp [wellFormedTrackB] at h
  | jarr xs => simp [wellFormedTrackB] at h

theorem extractTracks_ok (items : List JValue)
    (h : ∀ v ∈ items, wellFormedTrackB v = true) :
    ∃ tds, extractTracks items = .ok tds := by
  induction items with
  | nil => exact ⟨[], rfl⟩
  | cons x xs ih =>
    obtain ⟨td, htd⟩ := extractTrack_ok x (h x (by simp))
    obtain ⟨tds, htds⟩ := ih (fun v hv => h v (by simp [hv]))
    exact ⟨td :: tds, by simp [extractTracks, htd, htds]⟩

/-- C3: on every Schedule whose `score` is a list (of length 0, 1 or more)
of entries carrying the `voice`, `symbol`, `mass` and `formula` fields (a
string `formula`, per the data model), `format_latex_report` does not
raise, its output starts with the title line naming `schedule_logic`, and
it contains a master-equation block opened and closed by `$$`; in the
zero-track case the block is the equation skeleton for the given
`schedule_logic` around an empty sum. -/
theorem claim_C3_render_total_and_delimited (fs : List (Str × JValue)) (score : List JValue)
    (hscore : dictGet fs (lit "score") = some (.jarr score))
    (hwf : ∀ v ∈ score, wellFormedTrackB v = true) :
    ∃ r tds, format_latex_report fs = .ok r ∧
      extractTracks score = .ok tds ∧
      (∃ t2, r = lit "### Cognitive Schedule: **" ++ pyStr (reportLogic fs) ++
          lit "**\n" ++ t2) ∧
      (∃ a m, r = a ++ lit "$$" ++ m ++ lit "$$") ∧
      (score = [] → ∃ a, r = a ++ masterEquation (reportLogic fs) []) := by
  obtain ⟨tds, htds⟩ := extractTracks_ok score hwf
  have hfmt : format_latex_report fs =
      .ok (reportHeader (reportLogic fs) (reportNarrativeS fs) (reportFreqS fs) ++
           trackRows tds ++
           lit "\n**Intercalation Dynamics:**\n" ++ masterEquation (reportLogic fs) tds) := by
    unfold format_latex_report
    simp only [hscore, Option.getD_some, scoreItems, htds]
  refine ⟨_, tds, hfmt, htds, ?_, ?_, ?_⟩
  · refine ⟨lit "*" ++ reportNarrativeS fs ++ lit "* (Global Accel: $\\omega=" ++
      reportFreqS fs ++ lit "$)\n\n" ++
      lit "| Function | Objective Class | Math Form | Mass ($m$) |\n" ++
      lit "| :--- | :--- | :--- | :---: |\n" ++ trackRows tds ++
      lit "\n**Intercalation Dynamics:**\n" ++ masterEquation (reportLogic fs) tds, ?_⟩
    simp only [reportHeader, List.append_assoc]
  · refine ⟨reportHeader (reportLogic fs) (reportNarrativeS fs) (reportFreqS fs) ++
      trackRows tds ++ lit "\n**Intercalation Dynamics:**\n",
      lit " " ++ masterBody (reportLogic fs) tds ++ lit " ", ?_⟩
    have h1 : lit "$$ " = lit "$$" ++ lit " " := rfl
    have h2 : lit " $$" = lit " " ++ lit "$$" := rfl
    simp only [masterEquation, h1, h2, List.append_assoc]
  · intro hs0
    subst hs0
    have : tds = [] := by
      have h0 : extractTracks [] = .ok ([] : List TrackData) := rfl
      rw [h0] at htds
      injection htds with h
      exact h.symm
    subst this
    exact ⟨reportHeader (reportLogic fs) (reportNarrativeS fs) (reportFreqS fs) ++
      trackRows [] ++ lit "\n**Intercalation Dynamics:**\n", by simp [List.append_assoc]⟩

/-- C3, witness: the theorem applied to a concrete Orbital Schedule with
one track. -/
theorem claim_C3_witness :
    ∃ r tds,
      format_latex_report
        [(lit "schedule_logic", .jstr (lit "Orbital")),
         (lit "score", .jarr [.jobj [(lit "voice", .jstr (lit "V1")),
                                     (lit "symbol", .jstr (lit "S1")),
                                     (lit "mass", .jnum 5),
                                     (lit "formula", .jstr (lit "F1"))]])] = .ok r ∧
      extractTracks [.jobj [(lit "voice", .jstr (lit "V1")),
                            (lit "symbol", .jstr (lit "S1")),
                            (lit "mass", .jnum 5),
                            (lit "formula", .jstr (lit "F1"))]] = .ok tds ∧
      (∃ t2, r = lit "### Cognitive Schedule: **" ++
          pyStr (reportLogic
            [(lit "schedule_logic", .jstr (lit "Orbital")),
             (lit "score", .jarr [.jobj [(lit "voice", .jstr (lit "V1")),
                                         (lit "symbol", .jstr (lit "S1")),
                                         (lit "mass", .jnum 5),
                                         (lit "formula", .jstr (lit "F1"))]])]) ++
          lit "**\n" ++ t2) ∧
      (∃ a m, r = a ++ lit "$$" ++ m ++ lit "$$") ∧
      ([JValue.jobj [(lit "voice", .jstr (lit "V1")),
                     (lit "symbol", .jstr (lit "S1")),
                     (lit "mass", .jnum 5),
                     (lit "formula", .jstr (lit "F1"))]] = ([] : List JValue) →
        ∃ a, r = a ++ masterEquation (reportLogic
            [(lit "schedule_logic", .jstr (lit "Orbital")),
             (lit "score", .jarr [.jobj [(lit "voice", .jstr (lit "V1")),
                                         (lit "symbol", .jstr (lit "S1")),
                                         (lit "mass", .jnum 5),
                                         (lit "formula", .jstr (lit "F1"))]])]) []) :=
  claim_C3_render_total_and_delimited _ _ rfl (by decide)

/-- C4: for a Schedule with `schedule_logic = "Adversarial"` and
`score = [{mass: 5, formula: "A"}, {mass: 3, formula: "B"}]` (the `voice`
and `symbol` fields present but arbitrary), the rendered master-equation
body is exactly `5 \cdot [A] - 3 \cdot [B]` — first track
`mass \cdot [formula]`, later tracks ` - mass \cdot [formula]`
concatenated without `+` — wrapped as `J(\theta) = \max_\pi (...)`. -/
theorem claim_C4_adversarial_equation (v1 s1 v2 s2 : JValue)
    (fs t1f t2f : List (Str × JValue))
    (hlogic : dictGet fs (lit "schedule_logic") = some (.jstr (lit "Adversarial")))
    (hscore : dictGet fs (lit "score") = some (.jarr [.jobj t1f, .jobj t2f]))
    (h1v : dictGet t1f (lit "voice") = some v1)
    (h1s : dictGet t1f (lit "symbol") = some s1)
    (h1m : dictGet t1f (lit "mass") = some (.jnum 5))
    (h1f : dictGet t1f (lit "formula") = some (.jstr (lit "A")))
    (h2v : dictGet t2f (lit "voice") = some v2)
    (h2s : dictGet t2f (lit "symbol") = some s2)
    (h2m : dictGet t2f (lit "mass") = some (.jnum 3))
    (h2f : dictGet t2f (lit "formula") = some (.jstr (lit "B"))) :
    ∃ a, format_latex_report fs =
      .ok (a ++ (lit "$$ J(\\theta) = \\max_\\pi (" ++
                 lit "5 \\cdot [A] - 3 \\cdot [B]" ++ lit ") $$")) := by
  have he1 : extractTrack (.jobj t1f) = .ok ⟨pyStr v1, pyStr s1, lit "5", lit "A"⟩ := by
    have h : extractTrack (.jobj t1f) =
        .ok ⟨pyStr v1, pyStr s1, pyStr (.jnum 5), lit "A"⟩ := by
      simp only [extractTrack, h1f, h1v, h1s, h1m]
    rw [h]
    exact rfl
  have he2 : extractTrack (.jobj t2f) = .ok ⟨pyStr v2, pyStr s2, lit "3", lit "B"⟩ := by
    have h : extractTrack (.jobj t2f) =
        .ok ⟨pyStr v2, pyStr s2, pyStr (.jnum 3), lit "B"⟩ := by
      simp only [extractTrack, h2f, h2v, h2s, h2m]
    rw [h]
    exact rfl
  have hex : extractTracks [.jobj t1f, .jobj t2f] =
      .ok [⟨pyStr v1, pyStr s1, lit "5", lit "A"⟩,
           ⟨pyStr v2, pyStr s2, lit "3", lit "B"⟩] := by
    simp only [extractTracks, he1, he2]
  have hlog : reportLogic fs = .jstr (lit "Adversarial") := by
    simp [reportLogic, hlogic]
  have hfmt : format_latex_report fs =
      .ok (reportHeader (reportLogic fs) (reportNarrativeS fs) (reportFreqS fs) ++
           trackRows [⟨pyStr v1, pyStr s1, lit "5", lit "A"⟩,
                      ⟨pyStr v2, pyStr s2, lit "3", lit "B"⟩] ++
           lit "\n**Intercalation Dynamics:**\n" ++
           masterEquation (reportLogic fs)
             [⟨pyStr v1, pyStr s1, lit "5", lit "A"⟩,
              ⟨pyStr v2, pyStr s2, lit "3", lit "B"⟩]) := by
    unfold format_latex_report
    simp only [hscore, Option.getD_some, scoreItems, hex]
  rw [hlog] at hfmt
  have hmeq : masterEquation (.jstr (lit "Adversarial"))
      [⟨pyStr v1, pyStr s1, lit "5", lit "A"⟩,
       ⟨pyStr v2, pyStr s2, lit "3", lit "B"⟩] =
      lit "$$ J(\\theta) = \\max_\\pi (" ++
        lit "5 \\cdot [A] - 3 \\cdot [B]" ++ lit ") $$" := rfl
  refine ⟨reportHeader (.jstr (lit "Adversarial")) (reportNarrativeS fs) (reportFreqS fs) ++
      trackRows [⟨pyStr v1, pyStr s1, lit "5", lit "A"⟩,
                 ⟨pyStr v2, pyStr s2, lit "3", lit "B"⟩] ++
      lit "\n**Intercalation Dynamics:**\n", ?_⟩
  rw [hfmt, hmeq]

/-- C4, witness: the theorem applied to a concrete Adversarial Schedule. -/
theorem claim_C4_witness :
    ∃ a, format_latex_report
      [(lit "schedule_logic", .jstr (lit "Adversarial")),
       (lit "score", .jarr
         [.jobj [(lit "voice", .jstr (lit "Va")),
                 (lit "symbol", .jstr (lit "Sa")),
                 (lit "mass", .jnum 5),
                 (lit "formula", .jstr (lit "A"))],
          .jobj [(lit "voice", .jstr (lit "Vb")),
                 (lit "symbol", .jstr (lit "Sb")),
                 (lit "mass", .jnum 3),
                 (lit "formula", .jstr (lit "B"))]])] =
      .ok (a ++ (lit "$$ J(\\theta) = \\max_\\pi (" ++
                 lit "5 \\cdot [A] - 3 \\cdot [B]" ++ lit ") $$")) :=
  claim_C4_adversarial_equation (.jstr (lit "Va")) (.jstr (lit "Sa"))
    (.jstr (lit "Vb")) (.jstr (lit "Sb")) _ _ _
    rfl rfl rfl rfl rfl rfl rfl rfl rfl rfl

/-- Case-insensitive leftmost occurrence (regex flag `i`), via ASCII
lowercasing of both sides. -/
def firstOccCI (pat s : Str) : Option Nat := firstOcc (lowerStr pat) (lowerStr s)

/-- The heading literal of the cleanup regex. -/
def idLit : Str := lit "Intercalation Dynamics"

/-- The character class `[\*\#\s]` of the cleanup regex. -/
def isHeadClass (c : Char) : Bool := c = '*' || c = '#' || isPySpace c

/-- The match of `(?si)(.*?)(?:[\*\#\s]*Intercalation Dynamics\s*:?[\*\#\s]*)(.*)`
from `clean_latex_formatting`, reformulated deterministically: the lazy
group 1 ends where the run of `[\*\#\s]` characters immediately before the
first (case-insensitive) occurrence of the heading begins — no earlier
start can work because the heading itself contains letters outside the
class, and no backtracking is possible because the greedy tail `(.*)`
always matches.  After the heading, `\s*` eats whitespace, `:?` one
optional colon, and `[\*\#\s]*` a final class run; group 2 is the rest. -/
def findHeading (s : Str) : Option (Str × Str) :=
  match firstOccCI idLit s with
  | none => none
  | some q =>
    let pre := s.take q
    let backRun := (pre.reverse.takeWhile isHeadClass).length
    let s1 := s.drop (q + 22)
    let s2 := s1.dropWhile isPySpace
    let s3 := match s2 with
      | ':' :: t => t
      | other => other
    let s4 := s3.dropWhile isHeadClass
    some (s.take (q - backRun), s4)

/-- Length of the run of `$` characters at the head of `s`. -/
def dollarRun (s : Str) : Nat := (s.takeWhile (fun c => c = '$')).length

/-- A match of the fallback regex `` `(\$+.*?\$+)` `` starting at index
`j`, following the engine order: the first `\$+` is greedy (`k1` counted
down from the full run), `.*?` is lazy (`m` counted up, `.` not matching a
newline since `re.DOTALL` is not set), and the closing `\$+` can only
succeed with the entire dollar run at its position (a shorter greedy
retry is followed by another `$`, never by the required backtick).
Returns the exclusive end index of the whole match. -/
def btMatchAt (s : Str) (j : Nat) : Option Nat :=
  match s.drop j with
  | '`' :: rest =>
    let d1 := dollarRun rest
    if d1 = 0 then none
    else
      (List.range d1).findSome? (fun i =>
        let k1 := d1 - i
        let mid := s.drop (j + 1 + k1)
        let mMax := (mid.takeWhile (fun c => c ≠ '\n')).length
        (List.range (mMax + 1)).findSome? (fun m =>
          let pos := j + 1 + k1 + m
          let d2 := dollarRun (s.drop pos)
          if d2 = 0 then none
          else
            match s.drop (pos + d2) with
            | '`' :: _ => some (pos + d2 + 1)
            | _ => none))
  | _ => none

/-- Leftmost match of the fallback regex: `(start, end)` indices. -/
def btFindMatch (s : Str) : Option (Nat × Nat) :=
  (List.range s.length).findSome? (fun j => (btMatchAt s j).map (fun e => (j, e)))

/-- `re.sub` iteration for the fallback regex, replacing each match with
its group 1 (the match without the two backticks); fuel `s.length` is
enough because every match is at least four characters long. -/
def btSubAux : Nat → Str → Str
  | 0, s => s
  | fuel+1, s =>
    match btFindMatch s with
    | none => s
    | some (j, e) =>
      s.take j ++ ((s.drop (j + 1)).take (e - j - 2)) ++ btSubAux fuel (s.drop e)

/-- The fallback cleanup ``re.sub(r"`(\$+.*?\$+)`", r"\1", text)``. -/
def btSub (s : Str) : Str := btSubAux s.length s

/-- Step 1 of `clean_latex_formatting`: removal of the Markdown fence
markers. -/
def cleanFences (t : Str) : Str :=
  pyReplace (pyReplace (pyReplace t (lit "```latex") [])
    (lit "```markdown") []) (lit "```") []

/-- Step 2 of `clean_latex_formatting`: repair of the bracket/dollar
mismatch `[$` / `$]`. -/
def cleanBrackets (t : Str) : Str :=
  pyReplace (pyReplace t (lit "[$") (lit "(")) (lit "$]") (lit ")")

/-- `clean_latex_formatting` from `src/app.py` lines 23-61: fence-marker
removal, `[$`/`$]` repair, then either the "Intercalation Dynamics"
heading normalization (strip both captured groups, remove `*` emphasis
from the equation body, wrap it in `$$` unless already display-math) or
the fallback backtick unwrapping. -/
def clean_latex_formatting (t : Str) : Str :=
  if t = [] then []
  else
    let t2 := cleanBrackets (cleanFences t)
    match findHeading t2 with
    | some (g1, g2) =>
      let preamble := pyStrip g1
      let eqRaw := pyStrip g2
      let eqClean := pyReplace (pyReplace eqRaw (lit "**") []) (lit "*") []
      let eqSection :=
        if startsWith eqClean (lit "$$") || startsWith eqClean (lit "\\[") then eqClean
        else lit "$$\n" ++ eqClean ++ lit "\n$$"
      preamble ++ lit "\n\n**Intercalation Dynamics:**\n\n" ++ eqSection
    | none => btSub t2

/-- The two chat-client kinds `ModelFactory.get_model` can construct
(the temperature argument only parameterizes the client and is omitted). -/
inductive ChatClient where
  | gemini (modelName apiKey : Str)
  | ollama (modelName : Str)

/-- `ModelFactory.get_model` (src/patterns/config.py): a name starting
(case-insensitively) with `gemini` selects the remote client and requires
the `GEMINI_API_KEY` credential, raising `ValueError` when it is absent;
any other name selects the local client unconditionally. -/
def get_model (geminiKey : Option Str) (model_name : Str) : Except Str ChatClient :=
  if startsWith (lowerStr model_name) (lit "gemini") then
    match geminiKey with
    | none => .error (lit "GEMINI_API_KEY not found in environment variables.")
    | some k => .ok (.gemini model_name k)
  else .ok (.ollama model_name)

/-- The external effects of one `process_pattern` run: whether the
credential is configured, and the three stage invocations.  `l1` is
`AlgebraAnalyst(...).analyze(text)` (construction included), `l2` is
`Composer(...)` construction plus `self.chain.invoke(...)` on the layer-1
expression, `l3` is `CodeGenerator(...).generate_code(composition)`; an
`error` is an exception raised inside the stage, carrying `str(e)`. -/
structure Stages where
  geminiKey : Bool
  l1 : Except Str Str
  l2 : Str → Except Str Str
  l3 : JValue → Except Str Str

/-- `process_pattern` from `src/app.py` lines 79-116, over the stage
oracles: blank-input and missing-credential guards, then the three
stages in sequence, each `try` block converting an exception into an
error-prefixed slot with later slots empty. -/
def process_pattern (st : Stages) (text model_name : Str) : Str × Str × Str :=
  if pyStrip text = [] then (lit "Please enter text.", [], [])
  else if startsWith (lowerStr model_name) (lit "gemini") && !st.geminiKey then
    (lit "Error: GOOGLE_API_KEY missing.", [], [])
  else
    match st.l1 with
    | .error e => (lit "Error L1: " ++ e, [], [])
    | .ok a1 =>
      let expr := strip_think_tags a1
      match st.l2 expr with
      | .error e => (expr, lit "Error L2: " ++ e, [])
      | .ok raw =>
        match parse_json_safely (strip_think_tags raw) with
        | .jobj fsc =>
          match format_latex_report fsc with
          | .error e => (expr, lit "Error L2: " ++ e, [])
          | .ok rep =>
            let report := clean_latex_formatting rep
            match st.l3 (.jobj fsc) with
            | .error e => (expr, report, lit "Error L3: " ++ e)
            | .ok code => (expr, report, strip_think_tags code)
        | comp =>
          let report := lit "Error parsing JSON: " ++ pyStr comp
          match st.l3 comp with
          | .error e => (expr, report, lit "Error L3: " ++ e)
          | .ok code => (expr, report, strip_think_tags code)

/-- C8: blank (empty or whitespace-only) input returns exactly
`("Please enter text.", "", "")`, for every model name and without running
any stage (the result does not depend on the stage oracles). -/
theorem claim_C8_blank_input (st : Stages) (text model_name : Str)
    (h : pyStrip text = []) :
    process_pattern st text model_name = (lit "Please enter text.", [], []) := by
  unfold process_pattern
  rw [if_pos h]

/-- C8, witness: a whitespace-only input. -/
theorem claim_C8_witness :
    process_pattern ⟨true, .ok [], fun _ => .ok [], fun _ => .ok []⟩
      (lit "  ") (lit "llama3") = (lit "Please enter text.", [], []) :=
  claim_C8_blank_input _ (lit "  ") (lit "llama3") (by decide)

/-- C9: with non-blank text, a model name starting (case-insensitively)
with `gemini`, and the credential absent, `process_pattern` returns the
fixed configuration-error string in the first slot and empty strings in
the others, without running any stage; and the gateway `get_model`
raises its configuration `ValueError` under the same condition. -/
theorem claim_C9_missing_credential (st : Stages) (text model_name : Str)
    (hnb : pyStrip text ≠ [])
    (hg : startsWith (lowerStr model_name) (lit "gemini") = true)
    (hk : st.geminiKey = false) :
    process_pattern st text model_name = (lit "Error: GOOGLE_API_KEY missing.", [], []) ∧
    get_model none model_name =
      .error (lit "GEMINI_API_KEY not found in environment variables.") := by
  constructor
  · unfold process_pattern
    rw [if_neg hnb, hg, hk]
    rfl
  · unfold get_model
    rw [if_pos hg]

/-- C9, witness: `GEMINI-2.5-flash` with no credential configured. -/
theorem claim_C9_witness :
    process_pattern ⟨false, .ok [], fun _ => .ok [], fun _ => .ok []⟩
      (lit "hello") (lit "GEMINI-2.5-flash") =
      (lit "Error: GOOGLE_API_KEY missing.", [], []) ∧
    get_model none (lit "GEMINI-2.5-flash") =
      .error (lit "GEMINI_API_KEY not found in environment variables.") :=
  claim_C9_missing_credential ⟨false, .ok [], fun _ => .ok [], fun _ => .ok []⟩
    (lit "hello") (lit "GEMINI-2.5-flash") (by decide) (by decide) rfl

/-- C1: with the guards passed, a stage-`k` exception produces exactly the
tuple with the stage-1..k-1 outputs in their slots, an `Error L<k>: `
prefixed string in slot `k`, and empty strings in the later slots; the
orchestrator is a total function of the oracles, so no stage exception
ever propagates.  The five cases are: layer 1 raises; layer 2 raises in
the chain invocation; layer 2 raises inside `format_latex_report`; layer
3 raises after a dict composition; layer 3 raises after a non-dict
composition. -/
theorem claim_C1_stage_failure_tuples (st : Stages) (text model_name : Str)
    (h1 : pyStrip text ≠ [])
    (h2 : (startsWith (lowerStr model_name) (lit "gemini") && !st.geminiKey) = false) :
    (∀ e, st.l1 = .error e →
       process_pattern st text model_name = (lit "Error L1: " ++ e, [], [])) ∧
    (∀ a1 e, st.l1 = .ok a1 → st.l2 (strip_think_tags a1) = .error e →
       process_pattern st text model_name =
         (strip_think_tags a1, lit "Error L2: " ++ e, [])) ∧
    (∀ a1 raw fsc e, st.l1 = .ok a1 → st.l2 (strip_think_tags a1) = .ok raw →
       parse_json_safely (strip_think_tags raw) = .jobj fsc →
       format_latex_report fsc = .error e →
       process_pattern st text model_name =
         (strip_think_tags a1, lit "Error L2: " ++ e, [])) ∧
    (∀ a1 raw fsc rep e, st.l1 = .ok a1 → st.l2 (strip_think_tags a1) = .ok raw →
       parse_json_safely (strip_think_tags raw) = .jobj fsc →
       format_latex_report fsc = .ok rep →
       st.l3 (.jobj fsc) = .error e →
       process_pattern st text model_name =
         (strip_think_tags a1, clean_latex_formatting rep, lit "Error L3: " ++ e)) ∧
    (∀ a1 raw v e, st.l1 = .ok a1 → st.l2 (strip_think_tags a1) = .ok raw →
       parse_json_safely (strip_think_tags raw) = v → (∀ fsc, v ≠ .jobj fsc) →
       st.l3 v = .error e →
       process_pattern st text model_name =
         (strip_think_tags a1, lit "Error parsing JSON: " ++ pyStr v,
          lit "Error L3: " ++ e)) := by
  refine ⟨?_, ?_, ?_, ?_, ?_⟩
  · intro e he
    unfold process_pattern
    rw [if_neg h1, h2]
    simp only [he]
    rfl
  · intro a1 e hl1 hl2
    unfold process_pattern
    rw [if_neg h1, h2]
    simp only [hl1, hl2]
    rfl
  · intro a1 raw fsc e hl1 hl2 hv hfmt
    unfold process_pattern
    rw [if_neg h1, h2]
    simp only [hl1, hl2, hv, hfmt]
    rfl
  · intro a1 raw fsc rep e hl1 hl2 hv hfmt hl3
    unfold process_pattern
    rw [if_neg h1, h2]
    simp only [hl1, hl2, hv, hfmt, hl3]
    rfl
  · intro a1 raw v e hl1 hl2 hv hnd hl3
    unfold process_pattern
    rw [if_neg h1, h2]
    simp only [hl1, hl2]
    rw [hv]
    cases v with
    | jobj fsc => exact absurd rfl (hnd fsc)
    | jnull => simp only [hl3]; rfl
    | jbool b => simp only [hl3]; rfl
    | jnum n => simp only [hl3]; rfl
    | jstr s => simp only [hl3]; rfl
    | jarr xs => simp only [hl3]; rfl

/-- C1, witness: the five failure cases of the theorem at concrete
oracles. -/
theorem claim_C1_witness :
    process_pattern ⟨true, .error (lit "boom"), fun _ => .ok [], fun _ => .ok []⟩
      (lit "t") (lit "m") = (lit "Error L1: " ++ lit "boom", [], []) ∧
    process_pattern ⟨true, .ok (lit "E"), fun _ => .error (lit "net down"), fun _ => .ok []⟩
      (lit "t") (lit "m") =
      (strip_think_tags (lit "E"), lit "Error L2: " ++ lit "net down", []) ∧
    process_pattern ⟨true, .ok (lit "E"), fun _ => .ok (lit "\x7b\"score\": 1\x7d"),
        fun _ => .ok []⟩ (lit "t") (lit "m") =
      (strip_think_tags (lit "E"),
       lit "Error L2: " ++ lit "TypeError: score is not iterable", []) ∧
    process_pattern ⟨true, .ok (lit "E"), fun _ => .ok (lit "\x7b\x7d"),
        fun _ => .error (lit "x")⟩ (lit "t") (lit "m") =
      (strip_think_tags (lit "E"),
       clean_latex_formatting (lit "### Cognitive Schedule: **Linear**\n** (Global Accel: $\\omega=1.0$)\n\n| Function | Objective Class | Math Form | Mass ($m$) |\n| :--- | :--- | :--- | :---: |\n\n**Intercalation Dynamics:**\n$$ J(\\theta) =  $$"),
       lit "Error L3: " ++ lit "x") ∧
    process_pattern ⟨true, .ok (lit "E"), fun _ => .ok (lit "[1, 2]"),
        fun _ => .error (lit "y")⟩ (lit "t") (lit "m") =
      (strip_think_tags (lit "E"),
       lit "Error parsing JSON: " ++ pyStr (.jarr [.jnum 1, .jnum 2]),
       lit "Error L3: " ++ lit "y") :=
  ⟨(claim_C1_stage_failure_tuples ⟨true, .error (lit "boom"), fun _ => .ok [], fun _ => .ok []⟩
      (lit "t") (lit "m") (by decide) rfl).1 (lit "boom") rfl,
   (claim_C1_stage_failure_tuples ⟨true, .ok (lit "E"), fun _ => .error (lit "net down"),
      fun _ => .ok []⟩ (lit "t") (lit "m") (by decide) rfl).2.1
     (lit "E") (lit "net down") rfl rfl,
   (claim_C1_stage_failure_tuples ⟨true, .ok (lit "E"),
      fun _ => .ok (lit "\x7b\"score\": 1\x7d"), fun _ => .ok []⟩
      (lit "t") (lit "m") (by decide) rfl).2.2.1
     (lit "E") (lit "\x7b\"score\": 1\x7d") [(lit "score", .jnum 1)]
     (lit "TypeError: score is not iterable") rfl rfl rfl rfl,
   (claim_C1_stage_failure_tuples ⟨true, .ok (lit "E"), fun _ => .ok (lit "\x7b\x7d"),
      fun _ => .error (lit "x")⟩ (lit "t") (lit "m") (by decide) rfl).2.2.2.1
     (lit "E") (lit "\x7b\x7d") []
     (lit "### Cognitive Schedule: **Linear**\n** (Global Accel: $\\omega=1.0$)\n\n| Function | Objective Class | Math Form | Mass ($m$) |\n| :--- | :--- | :--- | :---: |\n\n**Intercalation Dynamics:**\n$$ J(\\theta) =  $$")
     (lit "x") rfl rfl rfl rfl rfl,
   (claim_C1_stage_failure_tuples ⟨true, .ok (lit "E"), fun _ => .ok (lit "[1, 2]"),
      fun _ => .error (lit "y")⟩ (lit "t") (lit "m") (by decide) rfl).2.2.2.2
     (lit "E") (lit "[1, 2]") (.jarr [.jnum 1, .jnum 2]) (lit "y") rfl rfl rfl
     (fun fsc h => JValue.noConfusion h) rfl⟩

/-- C10: when layer 2's JSON parse succeeds with a non-dictionary value
(array or scalar), `process_pattern` puts an `Error parsing JSON: `
message in the report slot and still hands that very value to layer 3's
code generator instead of substituting a degraded Schedule: the third
slot is computed from `st.l3` applied to the parsed value itself.  (A
non-dict result of `parse_json_safely` can only come from a successful
parse, since the degraded fallback is itself a dict — the first
conclusion makes that explicit.) -/
theorem claim_C10_nondict_passthrough (st : Stages) (text model_name : Str)
    (h1 : pyStrip text ≠ [])
    (h2 : (startsWith (lowerStr model_name) (lit "gemini") && !st.geminiKey) = false)
    (a1 raw : Str) (v : JValue)
    (hl1 : st.l1 = .ok a1) (hl2 : st.l2 (strip_think_tags a1) = .ok raw)
    (hv : parse_json_safely (strip_think_tags raw) = v)
    (hnd : ∀ fsc, v ≠ .jobj fsc) :
    jsonLoads (fenceStrip (strip_think_tags raw)) = .ok v ∧
    process_pattern st text model_name =
      (strip_think_tags a1,
       lit "Error parsing JSON: " ++ pyStr v,
       match st.l3 v with
       | .error e => lit "Error L3: " ++ e
       | .ok code => strip_think_tags code) := by
  constructor
  · unfold parse_json_safely at hv
    cases hj : jsonLoads (fenceStrip (strip_think_tags raw)) with
    | ok w =>
      simp only [hj] at hv
      rw [hv]
    | error e =>
      simp only [hj] at hv
      exact absurd hv.symm (hnd _)
  · unfold process_pattern
    rw [if_neg h1, h2]
    simp only [hl1, hl2]
    rw [hv]
    cases v with
    | jobj fsc => exact absurd rfl (hnd fsc)
    | jnull => cases h3 : st.l3 JValue.jnull <;> (simp only [h3]; try rfl)
    | jbool b => cases h3 : st.l3 (JValue.jbool b) <;> (simp only [h3]; try rfl)
    | jnum n => cases h3 : st.l3 (JValue.jnum n) <;> (simp only [h3]; try rfl)
    | jstr s => cases h3 : st.l3 (JValue.jstr s) <;> (simp only [h3]; try rfl)
    | jarr xs => cases h3 : st.l3 (JValue.jarr xs) <;> (simp only [h3]; try rfl)

/-- C10, witness: the model emits the JSON array `[1, 2]`; the report slot
carries the error message with the `str()` rendering of the list, and
layer 3 receives the list itself. -/
theorem claim_C10_witness :
    jsonLoads (fenceStrip (strip_think_tags (lit "[1, 2]"))) =
      .ok (.jarr [.jnum 1, .jnum 2]) ∧
    process_pattern ⟨true, .ok (lit "E"), fun _ => .ok (lit "[1, 2]"),
        fun v => .ok (dumps v)⟩ (lit "t") (lit "m") =
      (strip_think_tags (lit "E"),
       lit "Error parsing JSON: " ++ pyStr (.jarr [.jnum 1, .jnum 2]),
       strip_think_tags (dumps (.jarr [.jnum 1, .jnum 2]))) :=
  claim_C10_nondict_passthrough
    ⟨true, .ok (lit "E"), fun _ => .ok (lit "[1, 2]"), fun v => .ok (dumps v)⟩
    (lit "t") (lit "m") (by decide) rfl (lit "E") (lit "[1, 2]")
    (.jarr [.jnum 1, .jnum 2]) rfl rfl rfl (fun fsc h => JValue.noConfusion h)

theorem star_not_mem_replaceAux : ∀ (fuel : Nat) (s : Str), s.length ≤ fuel →
    '*' ∉ pyReplaceAux (lit "*") [] fuel s := by
  intro fuel
  induction fuel with
  | zero =>
    intro s hs
    have : s = [] := by
      cases s with
      | nil => rfl
      | cons _ _ => simp at hs
    subst this
    simp [pyReplaceAux]
  | succ f ih =>
    intro s hs
    cases s with
    | nil => simp [pyReplaceAux]
    | cons c t =>
      simp only [pyReplaceAux]
      by_cases hsw : startsWith (c :: t) (lit "*") = true
      · rw [if_pos hsw]
        simp only [List.nil_append]
        have : (c :: t).drop (lit "*").length = t := rfl
        rw [this]
        exact ih t (by simp at hs; omega)
      · rw [if_neg hsw]
        intro hmem
        cases hmem with
        | head =>
          apply hsw
          show startsWith ('*' :: t) (lit "*") = true
          simp [lit, startsWith]
        | tail _ hm => exact ih t (by simp at hs; omega) hm

/-- The single `*`-removal pass leaves no `*` in its output. -/
theorem star_not_mem_replace (s : Str) : '*' ∉ pyReplace s (lit "*") [] :=
  star_not_mem_replaceAux s.length s (le_refl _)

/-- C7, counterexample.  The claim asserts that `clean_latex_formatting`
is idempotent on every string.  It is not: on ```` ``$a$`` ```` the
fallback regex unwraps the inner backtick pair, exposing a new
backtick-delimited span that a second application also unwraps. -/
theorem claim_C7_counterexample :
    clean_latex_formatting (clean_latex_formatting (lit "``$a$``")) ≠
      clean_latex_formatting (lit "``$a$``") := by decide

/-- C7, amended.  `clean_latex_formatting` is not idempotent in general
(see the counterexample); what holds is the heading-path normalization:
on every nonempty input whose fence-stripped and bracket-repaired form
matches the "Intercalation Dynamics" regex, the output is the stripped
group-1 preamble, the canonical bold heading, and an equation section
that begins with `$$` or `\[` (the group-2 body is wrapped in `$$` when
not already display math) and contains no literal `*` emphasis marker. -/
theorem claim_C7_amended (t : Str) (ht : t ≠ []) (g1 g2 : Str)
    (hh : findHeading (cleanBrackets (cleanFences t)) = some (g1, g2)) :
    ∃ E, clean_latex_formatting t =
        pyStrip g1 ++ lit "\n\n**Intercalation Dynamics:**\n\n" ++ E ∧
      (startsWith E (lit "$$") = true ∨ startsWith E (lit "\\[") = true) ∧
      '*' ∉ E := by
  unfold clean_latex_formatting
  rw [if_neg ht]
  simp only [hh]
  by_cases hpre : (startsWith (pyReplace (pyReplace (pyStrip g2) (lit "**") []) (lit "*") [])
      (lit "$$") || startsWith (pyReplace (pyReplace (pyStrip g2) (lit "**") []) (lit "*") [])
      (lit "\\[")) = true
  · refine ⟨pyReplace (pyReplace (pyStrip g2) (lit "**") []) (lit "*") [], ?_, ?_, ?_⟩
    · rw [if_pos hpre]
    · simpa using hpre
    · exact star_not_mem_replace _
  · refine ⟨lit "$$\n" ++ pyReplace (pyReplace (pyStrip g2) (lit "**") []) (lit "*") [] ++
      lit "\n$$", ?_, ?_, ?_⟩
    · rw [if_neg hpre]
    · left
      have : lit "$$\n" ++ pyReplace (pyReplace (pyStrip g2) (lit "**") []) (lit "*") [] ++
          lit "\n$$" = lit "$$" ++ (lit "\n" ++
          pyReplace (pyReplace (pyStrip g2) (lit "**") []) (lit "*") [] ++ lit "\n$$") := by
        have hsplit : lit "$$\n" = lit "$$" ++ lit "\n" := rfl
        rw [hsplit]
        simp [List.append_assoc]
      rw [this]
      exact startsWith_append_self _ _
    · intro hmem
      simp only [List.append_assoc, List.mem_append] at hmem
      rcases hmem with h1 | h2 | h3
      · simp [lit] at h1
      · exact star_not_mem_replace _ h2
      · simp [lit] at h3

/-- C7, witness: the amended theorem at a concrete input containing the
heading with emphasis markers in the equation body. -/
theorem claim_C7_witness :
    ∃ E, clean_latex_formatting (lit "Table\nIntercalation Dynamics: x*y") =
        pyStrip (lit "Table") ++ lit "\n\n**Intercalation Dynamics:**\n\n" ++ E ∧
      (startsWith E (lit "$$") = true ∨ startsWith E (lit "\\[") = true) ∧
      '*' ∉ E :=
  claim_C7_amended (lit "Table\nIntercalation Dynamics: x*y") (by decide)
    (lit "Table") (lit "x*y") rfl

/-- A string right after a serialized JSON number: empty, or starting
with a character that can extend neither the digit run nor a float form. -/
def isDelim : Str → Prop
  | [] => True
  | c :: _ => isDigit c = false ∧ c ≠ '.' ∧ c ≠ 'e' ∧ c ≠ 'E'

theorem natToStrAux_spec (n : Nat) : ∀ (f : Nat) (acc : Str), n < f →
    natToStrAux f n acc = natToStr n ++ acc := by
  induction n using Nat.strong_induction_on with
  | _ n ih =>
    intro f acc hf
    cases f with
    | zero => omega
    | succ f2 =>
      by_cases h10 : n < 10
      · simp only [natToStrAux, if_pos h10]
        have hrep : natToStr n = [digitChar n] := by
          unfold natToStr
          simp [natToStrAux, h10]
        rw [hrep]
        rfl
      · have hdivlt : n / 10 < n := Nat.div_lt_self (by omega) (by omega)
        simp only [natToStrAux, if_neg h10]
        rw [ih (n / 10) hdivlt f2 (digitChar (n % 10) :: acc) (by omega)]
        have hrep : natToStr n = natToStr (n / 10) ++ [digitChar (n % 10)] := by
          conv_lhs => unfold natToStr
          simp only [natToStrAux, if_neg h10]
          rw [ih (n / 10) hdivlt n (digitChar (n % 10) :: []) (by omega)]
        rw [hrep]
        simp

theorem natToStr_low (n : Nat) (h : n < 10) : natToStr n = [digitChar n] := by
  unfold natToStr
  simp [natToStrAux, h]

theorem natToStr_high (n : Nat) (h : 10 ≤ n) :
    natToStr n = natToStr (n / 10) ++ [digitChar (n % 10)] := by
  have hdivlt : n / 10 < n := Nat.div_lt_self (by omega) (by omega)
  conv_lhs => unfold natToStr
  simp only [natToStrAux, if_neg (by omega : ¬ n < 10)]
  rw [natToStrAux_spec (n / 10) n (digitChar (n % 10) :: []) (by omega)]

theorem natToStr_ne_nil (n : Nat) : natToStr n ≠ [] := by
  by_cases h : n < 10
  · rw [natToStr_low n h]; simp
  · rw [natToStr_high n (by omega)]; simp

theorem natToStr_digits (n : Nat) : ∀ c ∈ natToStr n, isDigit c = true := by
  induction n using Nat.strong_induction_on with
  | _ n ih =>
    have hdig : ∀ d, d < 10 → isDigit (digitChar d) = true := by decide
    by_cases h : n < 10
    · rw [natToStr_low n h]
      intro c hc
      simp at hc
      subst hc
      exact hdig n h
    · rw [natToStr_high n (by omega)]
      intro c hc
      rcases List.mem_append.mp hc with h1 | h2
      · exact ih (n / 10) (Nat.div_lt_self (by omega) (by omega)) c h1
      · simp at h2
        subst h2
        exact hdig _ (Nat.mod_lt _ (by omega))

theorem natToStr_head_ne_zero (n : Nat) (hn : 1 ≤ n) :
    ∀ d ds, natToStr n = d :: ds → d ≠ '0' := by
  induction n using Nat.strong_induction_on with
  | _ n ih =>
    intro d ds hds
    by_cases h : n < 10
    · rw [natToStr_low n h] at hds
      injection hds with h1 h2
      have hbound : ∀ m, m < 10 → 1 ≤ m → digitChar m ≠ '0' := by decide
      rw [← h1]
      exact hbound n h hn
    · rw [natToStr_high n (by omega)] at hds
      obtain ⟨d2, ds2, hcons⟩ : ∃ d2 ds2, natToStr (n / 10) = d2 :: ds2 := by
        cases hh : natToStr (n / 10) with
        | nil => exact absurd hh (natToStr_ne_nil _)
        | cons a b => exact ⟨a, b, rfl⟩
      rw [hcons] at hds
      injection hds with h1 h2
      subst h1
      exact ih (n / 10) (Nat.div_lt_self (by omega) (by omega))
        (Nat.one_le_div_iff (by omega) |>.mpr (by omega)) d2 ds2 hcons

theorem digitsToNat_foldl (n : Nat) : ∀ a : Nat,
    (natToStr n).foldl (fun x c => x * 10 + digitVal c) a =
      a * 10 ^ (natToStr n).length + n := by
  induction n using Nat.strong_induction_on with
  | _ n ih =>
    intro a
    have hval : ∀ d, d < 10 → digitVal (digitChar d) = d := by decide
    by_cases h : n < 10
    · rw [natToStr_low n h]
      simp [List.foldl, hval n h]
    · rw [natToStr_high n (by omega)]
      rw [List.foldl_append]
      rw [ih (n / 10) (Nat.div_lt_self (by omega) (by omega)) a]
      simp only [List.foldl, List.length_append, List.length_singleton]
      rw [hval (n % 10) (Nat.mod_lt _ (by omega))]
      rw [pow_succ]
      have := Nat.div_add_mod n 10
      ring_nf
      omega

theorem digitsToNat_natToStr (n : Nat) : digitsToNat (natToStr n) = n := by
  unfold digitsToNat
  rw [digitsToNat_foldl n 0]
  simp

theorem takeWhile_digits_append (ds rest : Str)
    (hds : ∀ c ∈ ds, isDigit c = true) (hrest : isDelim rest) :
    (ds ++ rest).takeWhile isDigit = ds ∧ (ds ++ rest).dropWhile isDigit = rest := by
  induction ds with
  | nil =>
    cases rest with
    | nil => simp
    | cons c t =>
      obtain ⟨h1, _⟩ := hrest
      simp [List.takeWhile, List.dropWhile, h1]
  | cons d ds2 ih =>
    have hd : isDigit d = true := hds d (by simp)
    obtain ⟨ht, hdr⟩ := ih (fun c hc => hds c (by simp [hc]))
    simp only [List.cons_append, List.takeWhile_cons, List.dropWhile_cons, hd, ht, hdr]
    simp

theorem parseNumAbs_natToStr (k : Nat) (neg : Bool) (rest : Str) (hD : isDelim rest) :
    parseNumAbs (natToStr k ++ rest) neg =
      .ok (.jnum (cond neg (-(k : Int)) (k : Int)), rest) := by
  obtain ⟨htake, hdrop⟩ := takeWhile_digits_append (natToStr k) rest (natToStr_digits k) hD
  obtain ⟨d, ds, hcons⟩ : ∃ d ds, natToStr k = d :: ds := by
    cases hh : natToStr k with
    | nil => exact absurd hh (natToStr_ne_nil _)
    | cons a b => exact ⟨a, b, rfl⟩
  have hcond : ¬(d = '0' ∧ ds ≠ []) := by
    rintro ⟨h0, hne⟩
    by_cases hk : k < 10
    · rw [natToStr_low k hk] at hcons
      injection hcons with _ h2
      exact hne h2.symm
    · exact natToStr_head_ne_zero k (by omega) d ds hcons h0
  have hnum : digitsToNat (d :: ds) = k := by
    rw [← hcons, digitsToNat_natToStr]
  unfold parseNumAbs
  cases rest with
  | nil =>
    rw [htake, hdrop, hcons]
    simp only [if_neg hcond]
    simp [hnum]
  | cons c t =>
    obtain ⟨h1, h2, h3, h4⟩ := hD
    rw [htake, hdrop, hcons]
    simp only [if_neg hcond]
    rw [if_neg (by rintro (h | h | h) <;> [exact h2 h; exact h3 h; exact h4 h])]
    simp [hnum]

theorem parseNumber_intToStr (m : Int) (rest : Str) (hD : isDelim rest) :
    parseNumber (intToStr m ++ rest) = .ok (.jnum m, rest) := by
  cases m with
  | ofNat n =>
    obtain ⟨d, ds, hcons⟩ : ∃ d ds, natToStr n = d :: ds := by
      cases hh : natToStr n with
      | nil => exact absurd hh (natToStr_ne_nil _)
      | cons a b => exact ⟨a, b, rfl⟩
    have hdig : isDigit d = true := natToStr_digits n d (by rw [hcons]; simp)
    have hdm : d ≠ '-' := by
      intro h
      subst h
      simp [isDigit] at hdig
    have hform : intToStr (Int.ofNat n) ++ rest = d :: (ds ++ rest) := by
      show natToStr n ++ rest = d :: (ds ++ rest)
      rw [hcons]
      rfl
    have hback : (d :: (ds ++ rest)) = natToStr n ++ rest := by
      rw [hcons]
      rfl
    rw [hform]
    unfold parseNumber
    show (if d = '-' then parseNumAbs (ds ++ rest) true
          else parseNumAbs (d :: (ds ++ rest)) false) = Except.ok (JValue.jnum (Int.ofNat n), rest)
    rw [if_neg hdm, hback, parseNumAbs_natToStr n false rest hD]
    rfl
  | negSucc n =>
    have hform : intToStr (Int.negSucc n) ++ rest = '-' :: (natToStr (n + 1) ++ rest) := by
      show ('-' :: natToStr (n + 1)) ++ rest = _
      rfl
    rw [hform]
    unfold parseNumber
    show (if ('-' : Char) = '-' then parseNumAbs (natToStr (n + 1) ++ rest) true
          else parseNumAbs ('-' :: (natToStr (n + 1) ++ rest)) false) =
        Except.ok (JValue.jnum (Int.negSucc n), rest)
    rw [if_pos rfl, parseNumAbs_natToStr (n + 1) true rest hD]
    have heq : Int.negSucc n = -((n + 1 : Nat) : Int) := by
      rw [Int.negSucc_eq]
      push_cast
      ring
    rw [heq]
    rfl

theorem hexVal_hexDigitChar : ∀ x, x < 16 → hexVal (hexDigitChar x) = some x := by decide

theorem parseStringBody_escape : ∀ (s rest : Str),
    parseStringBody (escapeStr s ++ ('"' :: rest)) = .ok (s, rest) := by
  intro s
  induction s with
  | nil =>
    intro rest
    show parseStringBody ('"' :: rest) = _
    unfold parseStringBody
    simp
  | cons c t ih =>
    intro rest
    have hassoc : escapeStr (c :: t) ++ ('"' :: rest) =
        escapeChar c ++ (escapeStr t ++ ('"' :: rest)) := by
      simp [escapeStr, List.append_assoc]
    rw [hassoc]
    by_cases h1 : c = '"'
    · subst h1
      show parseStringBody ('\\' :: '"' :: (escapeStr t ++ '"' :: rest)) = _
      unfold parseStringBody
      simp [ih]
    by_cases h2 : c = '\\'
    · subst h2
      show parseStringBody ('\\' :: '\\' :: (escapeStr t ++ '"' :: rest)) = _
      unfold parseStringBody
      simp [ih]
    by_cases h3 : c = '\n'
    · subst h3
      show parseStringBody ('\\' :: 'n' :: (escapeStr t ++ '"' :: rest)) = _
      unfold parseStringBody
      simp [ih]
    by_cases h4 : c = '\t'
    · subst h4
      show parseStringBody ('\\' :: 't' :: (escapeStr t ++ '"' :: rest)) = _
      unfold parseStringBody
      simp [ih]
    by_cases h5 : c = '\r'
    · subst h5
      show parseStringBody ('\\' :: 'r' :: (escapeStr t ++ '"' :: rest)) = _
      unfold parseStringBody
      simp [ih]
    by_cases h6 : c = Char.ofNat 8
    · subst h6
      show parseStringBody ('\\' :: 'b' :: (escapeStr t ++ '"' :: rest)) = _
      unfold parseStringBody
      simp [ih]
    by_cases h7 : c = Char.ofNat 12
    · subst h7
      show parseStringBody ('\\' :: 'f' :: (escapeStr t ++ '"' :: rest)) = _
      unfold parseStringBody
      simp [ih]
    by_cases h8 : c.toNat < 32
    · unfold escapeChar
      rw [if_neg h1, if_neg h2, if_neg h3, if_neg h4, if_neg h5, if_neg h6, if_neg h7,
        if_pos h8]
      have hd1 : c.toNat / 16 < 16 := by omega
      have hd2 : c.toNat % 16 < 16 := by omega
      simp only [List.cons_append, List.nil_append]
      unfold parseStringBody
      rw [if_neg (by decide : ¬ ('\\' : Char) = '"'), if_pos (rfl : ('\\' : Char) = '\\')]
      simp only [if_pos (rfl : ('u' : Char) = 'u')]
      rw [hexVal_hexDigitChar _ hd1, hexVal_hexDigitChar _ hd2,
        (show hexVal '0' = some 0 by decide)]
      have hn : ((0 * 16 + 0) * 16 + c.toNat / 16) * 16 + c.toNat % 16 = c.toNat := by omega
      simp only [hn]
      rw [if_neg (by omega : ¬ (55296 ≤ c.toNat ∧ c.toNat ≤ 57343))]
      rw [ih rest]
      rw [Char.ofNat_toNat]
      simp
    · unfold escapeChar
      rw [if_neg h1, if_neg h2, if_neg h3, if_neg h4, if_neg h5, if_neg h6, if_neg h7,
        if_neg h8]
      simp only [List.cons_append, List.nil_append]
      unfold parseStringBody
      rw [if_neg h1, if_neg h2, if_neg h8]
      rw [ih rest]

theorem skipWs_cons_false (c : Char) (t : Str) (h : isJsonWs c = false) :
    skipWs (c :: t) = c :: t := by
  simp [skipWs, List.dropWhile_cons, h]

theorem skipWs_cons_true (c : Char) (t : Str) (h : isJsonWs c = true) :
    skipWs (c :: t) = skipWs t := by
  simp [skipWs, List.dropWhile_cons, h]

theorem skipWs_idem (s : Str) : skipWs (skipWs s) = skipWs s := by
  induction s with
  | nil => rfl
  | cons c t ih =>
    cases h : isJsonWs c with
    | false => rw [skipWs_cons_false c t h, skipWs_cons_false c t h]
    | true => rw [skipWs_cons_true c t h, ih]

theorem parseValue_skipWs (fuel : Nat) (s : Str) :
    parseValue fuel s = parseValue fuel (skipWs s) := by
  cases fuel with
  | zero => rfl
  | succ f =>
    show parseValue (f + 1) s = parseValue (f + 1) (skipWs s)
    unfold parseValue
    rw [skipWs_idem]

theorem startsWith_cons_ne (c p : Char) (t ps : Str) (h : c ≠ p) :
    startsWith (c :: t) (p :: ps) = false := by
  simp [startsWith, h]

theorem isDigit_char_props (d : Char) (hd : isDigit d = true) :
    isJsonWs d = false ∧ d ≠ '{' ∧ d ≠ '[' ∧ d ≠ '"' ∧ d ≠ 't' ∧ d ≠ 'f' ∧
      d ≠ 'n' ∧ d ≠ '-' ∧ d ≠ ']' ∧ d ≠ '}' := by
  have hr : 48 ≤ d.toNat ∧ d.toNat ≤ 57 := by
    simp [isDigit] at hd
    exact hd
  refine ⟨?_, ?_, ?_, ?_, ?_, ?_, ?_, ?_, ?_, ?_⟩
  · cases hws : isJsonWs d with
    | false => rfl
    | true =>
      exfalso
      simp [isJsonWs] at hws
      rcases hws with ((h | h) | h) | h <;> (subst h; exact absurd hr (by decide))
  all_goals (intro h; subst h; exact absurd hr (by decide))

theorem intToStr_shape (m : Int) : ∃ c t, intToStr m = c :: t ∧ isJsonWs c = false ∧
    c ≠ '{' ∧ c ≠ '[' ∧ c ≠ '"' ∧ c ≠ 't' ∧ c ≠ 'f' ∧ c ≠ 'n' ∧
    (c = '-' ∨ isDigit c = true) := by
  cases m with
  | ofNat n =>
    obtain ⟨d, ds, hcons⟩ : ∃ d ds, natToStr n = d :: ds := by
      cases hh : natToStr n with
      | nil => exact absurd hh (natToStr_ne_nil _)
      | cons a b => exact ⟨a, b, rfl⟩
    have hd : isDigit d = true := natToStr_digits n d (by rw [hcons]; simp)
    obtain ⟨p1, p2, p3, p4, p5, p6, p7, _, _, _⟩ := isDigit_char_props d hd
    exact ⟨d, ds, hcons, p1, p2, p3, p4, p5, p6, p7, Or.inr hd⟩
  | negSucc n =>
    exact ⟨'-', natToStr (n + 1), rfl, by decide, by decide, by decide, by decide,
      by decide, by decide, by decide, Or.inl rfl⟩

theorem dumps_shape (v : JValue) : ∃ c t, dumps v = c :: t ∧ isJsonWs c = false ∧
    c ≠ ']' ∧ c ≠ '}' := by
  cases v with
  | jnull => exact ⟨'n', lit "ull", rfl, by decide, by decide, by decide⟩
  | jbool b =>
    cases b with
    | true => exact ⟨'t', lit "rue", rfl, by decide, by decide, by decide⟩
    | false => exact ⟨'f', lit "alse", rfl, by decide, by decide, by decide⟩
  | jnum m =>
    obtain ⟨c, t, hct, hws, _, _, _, _, _, _, hdm⟩ := intToStr_shape m
    refine ⟨c, t, hct, hws, ?_, ?_⟩
    · rcases hdm with h | h
      · subst h; decide
      · exact (isDigit_char_props c h).2.2.2.2.2.2.2.2.1
    · rcases hdm with h | h
      · subst h; decide
      · exact (isDigit_char_props c h).2.2.2.2.2.2.2.2.2
  | jstr s => exact ⟨'"', escapeStr s ++ ['"'], rfl, by decide, by decide, by decide⟩
  | jarr xs => exact ⟨'[', dumpsList xs ++ [']'], rfl, by decide, by decide, by decide⟩
  | jobj fs => exact ⟨'{', dumpsFields fs ++ ['}'], rfl, by decide, by decide, by decide⟩

theorem dumps_length_pos (v : JValue) : 1 ≤ (dumps v).length := by
  obtain ⟨c, t, hct, _⟩ := dumps_shape v
  rw [hct]
  simp

theorem keyOccurs_append (k : Str) (a b : List (Str × JValue)) :
    keyOccurs k (a ++ b) = (keyOccurs k a || keyOccurs k b) := by
  induction a with
  | nil => simp [keyOccurs]
  | cons kv t ih =>
    obtain ⟨k2, v2⟩ := kv
    simp [keyOccurs, ih, Bool.or_assoc]

theorem insertKV_fresh (acc : List (Str × JValue)) (k : Str) (v : JValue)
    (h : keyOccurs k acc = false) : insertKV acc k v = acc ++ [(k, v)] := by
  induction acc with
  | nil => rfl
  | cons kv t ih =>
    obtain ⟨k2, v2⟩ := kv
    simp only [keyOccurs, Bool.or_eq_false_iff] at h
    obtain ⟨h1, h2⟩ := h
    have hne : k ≠ k2 := by
      intro hk
      rw [decide_eq_false_iff_not] at h1
      exact h1 hk
    simp only [insertKV, if_neg hne, ih h2]
    rfl

theorem keyOccurs_false_forall (k : Str) (fs : List (Str × JValue))
    (h : keyOccurs k fs = false) : ∀ kv ∈ fs, kv.1 ≠ k := by
  induction fs with
  | nil => simp
  | cons kv2 t ih =>
    obtain ⟨k2, v2⟩ := kv2
    simp only [keyOccurs, Bool.or_eq_false_iff] at h
    obtain ⟨h1, h2⟩ := h
    intro kv hkv
    rcases List.mem_cons.mp hkv with h3 | h3
    · subst h3
      intro hk
      rw [decide_eq_false_iff_not] at h1
      exact h1 hk.symm
    · exact ih h2 kv h3

/-- The round-trip property of one serialized value: with enough fuel and
a delimiter-started remainder, parsing the serialization returns the
value and the remainder. -/
def ParsesBack (v : JValue) : Prop :=
  noDupKeysB v = true → ∀ (fuel : Nat) (rest : Str), isDelim rest →
    2 * (dumps v).length < fuel → parseValue fuel (dumps v ++ rest) = .ok (v, rest)

theorem parseArrLoop_sp (f : Nat) (s : Str) (acc : List JValue) :
    parseArrLoop f (' ' :: s) acc = parseArrLoop f s acc := by
  cases f with
  | zero => rfl
  | succ f2 =>
    unfold parseArrLoop
    rw [parseValue_skipWs f2 (' ' :: s), skipWs_cons_true ' ' s (by decide),
      ← parseValue_skipWs]

theorem parseObjLoop_sp (f : Nat) (s : Str) (acc : List (Str × JValue)) :
    parseObjLoop f (' ' :: s) acc = parseObjLoop f s acc := by
  cases f with
  | zero => rfl
  | succ f2 =>
    unfold parseObjLoop
    rw [skipWs_cons_true ' ' s (by decide)]

theorem parseArrLoop_dumpsList :
    ∀ (xs : List JValue) (acc : List JValue) (rest : Str) (fuel : Nat),
    (∀ x ∈ xs, ParsesBack x) →
    (∀ x ∈ xs, noDupKeysB x = true) →
    xs ≠ [] →
    2 * (dumpsList xs).length + 1 < fuel →
    parseArrLoop fuel (dumpsList xs ++ (']' :: rest)) acc = .ok (.jarr (acc ++ xs), rest) := by
  intro xs
  induction xs with
  | nil => intro _ _ _ _ _ h _; exact absurd rfl h
  | cons x xs2 ih =>
    intro acc rest fuel hRT hnd _ hf
    obtain ⟨f, rfl⟩ : ∃ f, fuel = f + 1 := ⟨fuel - 1, by omega⟩
    cases xs2 with
    | nil =>
      have hlen : 2 * (dumps x).length < f := by
        have h0 : (dumpsList [x]).length = (dumps x).length := rfl
        omega
      have hpv := hRT x (by simp) (hnd x (by simp)) f (']' :: rest)
        ⟨by decide, by decide, by decide, by decide⟩ hlen
      show parseArrLoop (f + 1) (dumps x ++ (']' :: rest)) acc = _
      unfold parseArrLoop
      simp only [hpv, skipWs_cons_false ']' rest (by decide)]
      simp
    | cons y xs3 =>
      have hshape : dumpsList (x :: y :: xs3) ++ (']' :: rest) =
          dumps x ++ (',' :: ' ' :: (dumpsList (y :: xs3) ++ (']' :: rest))) := by
        show (dumps x ++ [',', ' '] ++ dumpsList (y :: xs3)) ++ (']' :: rest) = _
        simp [List.append_assoc]
      have hlen1 : 1 ≤ (dumps x).length := dumps_length_pos x
      have hlen2 : (dumpsList (x :: y :: xs3)).length =
          (dumps x).length + 2 + (dumpsList (y :: xs3)).length := by
        show (dumps x ++ [',', ' '] ++ dumpsList (y :: xs3)).length = _
        simp
        omega
      rw [hshape]
      have hpv := hRT x (by simp) (hnd x (by simp)) f
        (',' :: ' ' :: (dumpsList (y :: xs3) ++ (']' :: rest)))
        ⟨by decide, by decide, by decide, by decide⟩ (by omega)
      unfold parseArrLoop
      simp only [hpv, skipWs_cons_false ',' _ (by decide)]
      rw [if_pos trivial]
      rw [parseArrLoop_sp]
      rw [ih (acc ++ [x]) rest f (fun z hz => hRT z (by simp [hz]))
        (fun z hz => hnd z (by simp [hz])) (by simp) (by omega)]
      simp

theorem parseValue_sp (f : Nat) (X : Str) : parseValue f (' ' :: X) = parseValue f X := by
  rw [parseValue_skipWs f (' ' :: X), skipWs_cons_true ' ' X (by decide), ← parseValue_skipWs]

theorem parseObjLoop_dumpsFields :
    ∀ (fs : List (Str × JValue)) (acc : List (Str × JValue)) (rest : Str) (fuel : Nat),
    (∀ kv ∈ fs, ParsesBack kv.2) →
    noDupKeysFields fs = true →
    (∀ kv ∈ fs, keyOccurs kv.1 acc = false) →
    fs ≠ [] →
    2 * (dumpsFields fs).length + 1 < fuel →
    parseObjLoop fuel (dumpsFields fs ++ ('}' :: rest)) acc =
      .ok (.jobj (acc ++ fs), rest) := by
  have hq : ∀ (X : Str), skipWs ('"' :: X) = '"' :: X :=
    fun X => skipWs_cons_false _ X (by decide)
  have hcolon : ∀ (X : Str), skipWs (':' :: X) = ':' :: X :=
    fun X => skipWs_cons_false _ X (by decide)
  have hbrace : ∀ (X : Str), skipWs ('}' :: X) = '}' :: X :=
    fun X => skipWs_cons_false _ X (by decide)
  have hcomma : ∀ (X : Str), skipWs (',' :: X) = ',' :: X :=
    fun X => skipWs_cons_false _ X (by decide)
  intro fs
  induction fs with
  | nil => intro _ _ _ _ _ _ h _; exact absurd rfl h
  | cons kv fs2 ih =>
    obtain ⟨k, v⟩ := kv
    intro acc rest fuel hRT hnd hfresh _ hf
    obtain ⟨f, rfl⟩ : ∃ f, fuel = f + 1 := ⟨fuel - 1, by omega⟩
    have hndparts : keyOccurs k fs2 = false ∧ noDupKeysB v = true ∧
        noDupKeysFields fs2 = true := by
      simp only [noDupKeysFields, Bool.and_eq_true, Bool.not_eq_true'] at hnd
      exact ⟨hnd.1.1, hnd.1.2, hnd.2⟩
    cases fs2 with
    | nil =>
      have hshape : dumpsFields [(k, v)] ++ ('}' :: rest) =
          '"' :: (escapeStr k ++ ('"' :: (':' :: ' ' :: (dumps v ++ ('}' :: rest))))) := by
        show (('"' :: (escapeStr k ++ ['"'])) ++ [':', ' '] ++ dumps v) ++ ('}' :: rest) = _
        simp [List.append_assoc]
      have hflen : (dumpsFields [(k, v)]).length =
          (escapeStr k).length + 4 + (dumps v).length := by
        show (('"' :: (escapeStr k ++ ['"'])) ++ [':', ' '] ++ dumps v).length = _
        simp
        omega
      have hRTv : ParsesBack v := hRT (k, v) (by simp)
      have hpv := hRTv hndparts.2.1 f ('}' :: rest)
        ⟨by decide, by decide, by decide, by decide⟩ (by omega)
      rw [hshape]
      unfold parseObjLoop
      simp only [hq, parseStringBody_escape, hcolon, parseValue_sp, hpv, hbrace]
      rw [insertKV_fresh acc k v (hfresh (k, v) (by simp))]
      simp
    | cons f2 fs3 =>
      have hshape : dumpsFields ((k, v) :: f2 :: fs3) ++ ('}' :: rest) =
          '"' :: (escapeStr k ++ ('"' :: (':' :: ' ' :: (dumps v ++
            (',' :: ' ' :: (dumpsFields (f2 :: fs3) ++ ('}' :: rest))))))) := by
        show (('"' :: (escapeStr k ++ ['"'])) ++ [':', ' '] ++ dumps v ++ [',', ' '] ++
            dumpsFields (f2 :: fs3)) ++ ('}' :: rest) = _
        simp [List.append_assoc]
      have hflen : (dumpsFields ((k, v) :: f2 :: fs3)).length =
          (escapeStr k).length + 6 + (dumps v).length + (dumpsFields (f2 :: fs3)).length := by
        show (('"' :: (escapeStr k ++ ['"'])) ++ [':', ' '] ++ dumps v ++ [',', ' '] ++
            dumpsFields (f2 :: fs3)).length = _
        simp
        omega
      have hRTv : ParsesBack v := hRT (k, v) (by simp)
      have hpv := hRTv hndparts.2.1 f
        (',' :: ' ' :: (dumpsFields (f2 :: fs3) ++ ('}' :: rest)))
        ⟨by decide, by decide, by decide, by decide⟩ (by omega)
      rw [hshape]
      unfold parseObjLoop
      simp only [hq, parseStringBody_escape, hcolon, parseValue_sp, hpv, hcomma]
      rw [insertKV_fresh acc k v (hfresh (k, v) (by simp))]
      rw [parseObjLoop_sp]
      have hfresh2 : ∀ kv ∈ f2 :: fs3, keyOccurs kv.1 (acc ++ [(k, v)]) = false := by
        intro kv hkv
        rw [keyOccurs_append]
        have h1 : keyOccurs kv.1 acc = false := hfresh kv (by simp [hkv])
        have h2 : kv.1 ≠ k := keyOccurs_false_forall k (f2 :: fs3) hndparts.1 kv hkv
        simp [keyOccurs, h1]
        intro hk
        exact absurd hk h2
      rw [ih (acc ++ [(k, v)]) rest f (fun z hz => hRT z (by simp [hz]))
        hndparts.2.2 hfresh2 (by simp) (by omega)]
      simp

theorem JValue.myInd (P : JValue → Prop)
    (h1 : P .jnull) (h2 : ∀ b, P (.jbool b)) (h3 : ∀ n, P (.jnum n)) (h4 : ∀ s, P (.jstr s))
    (h5 : ∀ xs, (∀ x ∈ xs, P x) → P (.jarr xs))
    (h6 : ∀ fs, (∀ kv ∈ fs, P (Prod.snd kv)) → P (.jobj fs)) : ∀ v, P v
  | .jnull => h1
  | .jbool b => h2 b
  | .jnum n => h3 n
  | .jstr s => h4 s
  | .jarr xs => h5 xs (fun x hx =>
      have : sizeOf x < 1 + sizeOf xs := by
        have := List.sizeOf_lt_of_mem hx
        omega
      JValue.myInd P h1 h2 h3 h4 h5 h6 x)
  | .jobj fs => h6 fs (fun kv hkv =>
      have : sizeOf kv.2 < 1 + sizeOf fs := by
        have h := List.sizeOf_lt_of_mem hkv
        have h2 : sizeOf kv.2 < sizeOf kv := by
          obtain ⟨a, b⟩ := kv
          simp
        omega
      JValue.myInd P h1 h2 h3 h4 h5 h6 kv.2)
termination_by v => sizeOf v

theorem noDupKeysList_forall (xs : List JValue) (h : noDupKeysList xs = true) :
    ∀ x ∈ xs, noDupKeysB x = true := by
  induction xs with
  | nil => simp
  | cons y ys ih =>
    simp only [noDupKeysList, Bool.and_eq_true] at h
    intro x hx
    rcases List.mem_cons.mp hx with h2 | h2
    · subst h2; exact h.1
    · exact ih h.2 x h2

theorem parseValue_nl (f : Nat) (X : Str) : parseValue f ('\n' :: X) = parseValue f X := by
  rw [parseValue_skipWs f ('\n' :: X), skipWs_cons_true '\n' X (by decide), ← parseValue_skipWs]

theorem parseValue_dumps : ∀ v, ParsesBack v := by
  refine JValue.myInd ParsesBack ?_ ?_ ?_ ?_ ?_ ?_
  · -- jnull
    intro _ fuel rest hD hf
    have h4 : (dumps JValue.jnull).length = 4 := rfl
    obtain ⟨f, rfl⟩ : ∃ f, fuel = f + 1 := ⟨fuel - 1, by omega⟩
    show parseValue (f + 1) ('n' :: (lit "ull" ++ rest)) = .ok (.jnull, rest)
    unfold parseValue
    simp only [skipWs_cons_false 'n' _ (by decide)]
    rw [if_neg (by decide : ¬(('n' : Char) = '{')), if_neg (by decide : ¬(('n' : Char) = '[')),
      if_neg (by decide : ¬(('n' : Char) = '"'))]
    have hT : startsWith ('n' :: (lit "ull" ++ rest)) (lit "true") = false := by
      rw [show lit "true" = 't' :: lit "rue" from rfl]
      exact startsWith_cons_ne _ _ _ _ (by decide)
    have hF : startsWith ('n' :: (lit "ull" ++ rest)) (lit "false") = false := by
      rw [show lit "false" = 'f' :: lit "alse" from rfl]
      exact startsWith_cons_ne _ _ _ _ (by decide)
    have hN : startsWith ('n' :: (lit "ull" ++ rest)) (lit "null") = true := by
      rw [show 'n' :: (lit "ull" ++ rest) = lit "null" ++ rest from rfl]
      exact startsWith_append_self _ _
    rw [hT, hF, hN]
    simp
    rfl
  · -- jbool
    intro b _ fuel rest hD hf
    cases b with
    | true =>
      have h4 : (dumps (JValue.jbool true)).length = 4 := rfl
      obtain ⟨f, rfl⟩ : ∃ f, fuel = f + 1 := ⟨fuel - 1, by omega⟩
      show parseValue (f + 1) ('t' :: (lit "rue" ++ rest)) = .ok (.jbool true, rest)
      unfold parseValue
      simp only [skipWs_cons_false 't' _ (by decide)]
      rw [if_neg (by decide : ¬(('t' : Char) = '{')), if_neg (by decide : ¬(('t' : Char) = '[')),
        if_neg (by decide : ¬(('t' : Char) = '"'))]
      have hT : startsWith ('t' :: (lit "rue" ++ rest)) (lit "true") = true := by
        rw [show 't' :: (lit "rue" ++ rest) = lit "true" ++ rest from rfl]
        exact startsWith_append_self _ _
      rw [hT]
      simp
      rfl
    | false =>
      have h5 : (dumps (JValue.jbool false)).length = 5 := rfl
      obtain ⟨f, rfl⟩ : ∃ f, fuel = f + 1 := ⟨fuel - 1, by omega⟩
      show parseValue (f + 1) ('f' :: (lit "alse" ++ rest)) = .ok (.jbool false, rest)
      unfold parseValue
      simp only [skipWs_cons_false 'f' _ (by decide)]
      rw [if_neg (by decide : ¬(('f' : Char) = '{')), if_neg (by decide : ¬(('f' : Char) = '[')),
        if_neg (by decide : ¬(('f' : Char) = '"'))]
      have hT : startsWith ('f' :: (lit "alse" ++ rest)) (lit "true") = false := by
        rw [show lit "true" = 't' :: lit "rue" from rfl]
        exact startsWith_cons_ne _ _ _ _ (by decide)
      have hF : startsWith ('f' :: (lit "alse" ++ rest)) (lit "false") = true := by
        rw [show 'f' :: (lit "alse" ++ rest) = lit "false" ++ rest from rfl]
        exact startsWith_append_self _ _
      rw [hT, hF]
      simp
      rfl
  · -- jnum
    intro m _ fuel rest hD hf
    have hlp : 1 ≤ (dumps (JValue.jnum m)).length := dumps_length_pos _
    obtain ⟨f, rfl⟩ : ∃ f, fuel = f + 1 := ⟨fuel - 1, by omega⟩
    obtain ⟨c, t2, hct, hws, hne1, hne2, hne3, hne4, hne5, hne6, hdm⟩ := intToStr_shape m
    have hshape : dumps (JValue.jnum m) ++ rest = c :: (t2 ++ rest) := by
      show intToStr m ++ rest = _
      rw [hct]
      rfl
    rw [hshape]
    unfold parseValue
    simp only [skipWs_cons_false c _ hws]
    rw [if_neg hne1, if_neg hne2, if_neg hne3]
    have hT : startsWith (c :: (t2 ++ rest)) (lit "true") = false := by
      rw [show lit "true" = 't' :: lit "rue" from rfl]
      exact startsWith_cons_ne _ _ _ _ hne4
    have hF : startsWith (c :: (t2 ++ rest)) (lit "false") = false := by
      rw [show lit "false" = 'f' :: lit "alse" from rfl]
      exact startsWith_cons_ne _ _ _ _ hne5
    have hN : startsWith (c :: (t2 ++ rest)) (lit "null") = false := by
      rw [show lit "null" = 'n' :: lit "ull" from rfl]
      exact startsWith_cons_ne _ _ _ _ hne6
    rw [hT, hF, hN]
    have hcond : (decide (c = '-') || isDigit c) = true := by
      rcases hdm with h | h
      · subst h; rfl
      · rw [h]; simp
    simp only [hcond]
    have hgoal : parseNumber (c :: (t2 ++ rest)) = .ok (.jnum m, rest) := by
      rw [← hshape]
      exact parseNumber_intToStr m rest hD
    rw [hgoal]
    simp
  · -- jstr
    intro s _ fuel rest hD hf
    have hlp : 1 ≤ (dumps (JValue.jstr s)).length := dumps_length_pos _
    obtain ⟨f, rfl⟩ : ∃ f, fuel = f + 1 := ⟨fuel - 1, by omega⟩
    have hshape : dumps (JValue.jstr s) ++ rest = '"' :: (escapeStr s ++ ('"' :: rest)) := by
      show ('"' :: (escapeStr s ++ ['"'])) ++ rest = _
      simp [List.append_assoc]
    rw [hshape]
    unfold parseValue
    simp only [skipWs_cons_false '"' _ (by decide), parseStringBody_escape]
    simp
  · -- jarr
    intro xs hPB hnd fuel rest hD hf
    simp only [noDupKeysB] at hnd
    cases xs with
    | nil =>
      have h2 : (dumps (JValue.jarr [])).length = 2 := rfl
      obtain ⟨f, rfl⟩ : ∃ f, fuel = f + 1 := ⟨fuel - 1, by omega⟩
      obtain ⟨f2, rfl⟩ : ∃ f2, f = f2 + 1 := ⟨f - 1, by omega⟩
      show parseValue (f2 + 1 + 1) ('[' :: (']' :: rest)) = .ok (.jarr [], rest)
      unfold parseValue
      simp only [skipWs_cons_false '[' _ (by decide)]
      rw [if_neg (by decide : ¬(('[' : Char) = '{')), if_pos trivial]
      unfold parseArrStart
      simp only [skipWs_cons_false ']' _ (by decide)]
      simp
    | cons x xs2 =>
      have hlen : (dumps (JValue.jarr (x :: xs2))).length = (dumpsList (x :: xs2)).length + 2 := by
        show ('[' :: (dumpsList (x :: xs2) ++ [']'])).length = _
        simp
      obtain ⟨f, rfl⟩ : ∃ f, fuel = f + 1 := ⟨fuel - 1, by omega⟩
      obtain ⟨f2, rfl⟩ : ∃ f2, f = f2 + 1 := ⟨f - 1, by omega⟩
      have hshape : dumps (JValue.jarr (x :: xs2)) ++ rest =
          '[' :: (dumpsList (x :: xs2) ++ (']' :: rest)) := by
        show ('[' :: (dumpsList (x :: xs2) ++ [']'])) ++ rest = _
        simp [List.append_assoc]
      rw [hshape]
      obtain ⟨c, t, hct, hws, hcb, _⟩ := dumps_shape x
      obtain ⟨Z, hZ⟩ : ∃ Z, dumpsList (x :: xs2) ++ (']' :: rest) = c :: Z := by
        cases xs2 with
        | nil =>
          refine ⟨t ++ (']' :: rest), ?_⟩
          show dumps x ++ (']' :: rest) = _
          rw [hct]
          rfl
        | cons y ys =>
          refine ⟨t ++ ([',', ' '] ++ dumpsList (y :: ys)) ++ (']' :: rest), ?_⟩
          show (dumps x ++ [',', ' '] ++ dumpsList (y :: ys)) ++ (']' :: rest) = _
          rw [hct]
          simp [List.append_assoc]
      unfold parseValue
      simp only [skipWs_cons_false '[' _ (by decide)]
      rw [if_neg (by decide : ¬(('[' : Char) = '{')), if_pos trivial]
      unfold parseArrStart
      rw [hZ]
      simp only [skipWs_cons_false c _ hws]
      rw [if_neg hcb]
      rw [← hZ]
      rw [parseArrLoop_dumpsList (x :: xs2) [] rest f2 hPB
        (noDupKeysList_forall _ hnd) (by simp) (by omega)]
      simp
  · -- jobj
    intro fs hPB hnd fuel rest hD hf
    simp only [noDupKeysB] at hnd
    cases fs with
    | nil =>
      have h2 : (dumps (JValue.jobj [])).length = 2 := rfl
      obtain ⟨f, rfl⟩ : ∃ f, fuel = f + 1 := ⟨fuel - 1, by omega⟩
      obtain ⟨f2, rfl⟩ : ∃ f2, f = f2 + 1 := ⟨f - 1, by omega⟩
      show parseValue (f2 + 1 + 1) ('{' :: ('}' :: rest)) = .ok (.jobj [], rest)
      unfold parseValue
      simp only [skipWs_cons_false '{' _ (by decide)]
      rw [if_pos trivial]
      unfold parseObjStart
      simp only [skipWs_cons_false '}' _ (by decide)]
      simp
    | cons kv fs2 =>
      have hlen : (dumps (JValue.jobj (kv :: fs2))).length =
          (dumpsFields (kv :: fs2)).length + 2 := by
        show ('{' :: (dumpsFields (kv :: fs2) ++ ['}'])).length = _
        simp
      obtain ⟨f, rfl⟩ : ∃ f, fuel = f + 1 := ⟨fuel - 1, by omega⟩
      obtain ⟨f2, rfl⟩ : ∃ f2, f = f2 + 1 := ⟨f - 1, by omega⟩
      have hshape : dumps (JValue.jobj (kv :: fs2)) ++ rest =
          '{' :: (dumpsFields (kv :: fs2) ++ ('}' :: rest)) := by
        show ('{' :: (dumpsFields (kv :: fs2) ++ ['}'])) ++ rest = _
        simp [List.append_assoc]
      rw [hshape]
      obtain ⟨k, v⟩ := kv
      obtain ⟨Z, hZ⟩ : ∃ Z, dumpsFields ((k, v) :: fs2) ++ ('}' :: rest) = '"' :: Z := by
        cases fs2 with
        | nil =>
          refine ⟨(escapeStr k ++ ['"'] ++ [':', ' '] ++ dumps v) ++ ('}' :: rest), ?_⟩
          show (('"' :: (escapeStr k ++ ['"'])) ++ [':', ' '] ++ dumps v) ++ ('}' :: rest) = _
          simp [List.append_assoc]
        | cons g gs =>
          refine ⟨(escapeStr k ++ ['"'] ++ [':', ' '] ++ dumps v ++ [',', ' '] ++
            dumpsFields (g :: gs)) ++ ('}' :: rest), ?_⟩
          show (('"' :: (escapeStr k ++ ['"'])) ++ [':', ' '] ++ dumps v ++ [',', ' '] ++
            dumpsFields (g :: gs)) ++ ('}' :: rest) = _
          simp [List.append_assoc]
      unfold parseValue
      simp only [skipWs_cons_false '{' _ (by decide)]
      rw [if_pos trivial]
      unfold parseObjStart
      rw [hZ]
      simp only [skipWs_cons_false '"' _ (by decide)]
      rw [if_neg (by decide : ¬(('"' : Char) = '}'))]
      rw [← hZ]
      rw [parseObjLoop_dumpsFields ((k, v) :: fs2) [] rest f2 hPB hnd
        (fun kv2 _ => rfl) (by simp) (by omega)]
      simp

/-- The exact fenced block the composer prompt asks the model for: the
serialized JSON surrounded by a ```json code fence. -/
def fenceWrap (j : Str) : Str := lit "```json\n" ++ j ++ lit "\n```"

theorem dropWhile_cons_false (c : Char) (t : Str) (h : isPySpace c = false) :
    (c :: t).dropWhile isPySpace = c :: t := by
  simp [List.dropWhile_cons, h]

theorem fenceStrip_wrap (j : Str) : fenceStrip (fenceWrap j) = '\n' :: (j ++ ['\n']) := by
  have hshape1 : fenceWrap j = '`' :: (lit "``json\n" ++ j ++ lit "\n```") := rfl
  have hrev : (fenceWrap j).reverse =
      '`' :: ('`' :: ('`' :: ('\n' :: (lit "```json\n" ++ j).reverse))) := by
    show ((lit "```json\n" ++ j) ++ lit "\n```").reverse = _
    rw [List.reverse_append]
    rfl
  have hstrip : pyStrip (fenceWrap j) = fenceWrap j := by
    unfold pyStrip
    rw [hshape1, dropWhile_cons_false '`' _ (by decide), ← hshape1, hrev,
      dropWhile_cons_false '`' _ (by decide), ← hrev, List.reverse_reverse]
  have hsw1 : startsWith (fenceWrap j) (lit "```json") = true := by
    rw [show fenceWrap j = lit "```json" ++ ('\n' :: (j ++ lit "\n```")) from rfl]
    exact startsWith_append_self _ _
  have hdrop7 : (fenceWrap j).drop 7 = '\n' :: (j ++ lit "\n```") := rfl
  have hsw2 : startsWith ('\n' :: (j ++ lit "\n```")) (lit "```") = false := by
    rw [show lit "```" = '`' :: lit "``" from rfl]
    exact startsWith_cons_ne _ _ _ _ (by decide)
  have hrev2 : ('\n' :: (j ++ lit "\n```")).reverse =
      '`' :: ('`' :: ('`' :: ('\n' :: (j.reverse ++ ['\n'])))) := by
    rw [List.reverse_cons, List.reverse_append]
    rfl
  have hend : endsWith ('\n' :: (j ++ lit "\n```")) (lit "```") = true := by
    unfold endsWith
    rw [hrev2, show (lit "```").reverse = lit "```" from rfl,
      show '`' :: ('`' :: ('`' :: ('\n' :: (j.reverse ++ ['\n'])))) =
        lit "```" ++ ('\n' :: (j.reverse ++ ['\n'])) from rfl]
    exact startsWith_append_self _ _
  have hlen2 : ('\n' :: (j ++ lit "\n```")).length = j.length + 5 := by
    have h4 : (lit "\n```").length = 4 := rfl
    rw [List.length_cons, List.length_append, h4]
  have hsplit : '\n' :: (j ++ lit "\n```") = ('\n' :: (j ++ ['\n'])) ++ lit "```" := by
    rw [show lit "\n```" = ['\n'] ++ lit "```" from rfl]
    simp [List.append_assoc]
  have hidx : j.length + 5 - 3 = ('\n' :: (j ++ ['\n'])).length := by
    simp
  unfold fenceStrip
  simp only [hstrip, hsw1, hdrop7, hsw2, hend, eq_self_iff_true, if_true,
    Bool.false_eq_true, if_false]
  rw [hlen2, hidx, hsplit]
  exact List.take_left _ _

theorem jsonLoads_wrap (fs : List (Str × JValue)) (hnd : noDupKeysB (.jobj fs) = true) :
    jsonLoads ('\n' :: (dumps (.jobj fs) ++ ['\n'])) = .ok (.jobj fs) := by
  have hL : ('\n' :: (dumps (JValue.jobj fs) ++ ['\n'])).length =
      (dumps (JValue.jobj fs)).length + 2 := by
    simp
  unfold jsonLoads
  rw [parseValue_nl]
  rw [parseValue_dumps (.jobj fs) hnd _ ['\n']
    ⟨by decide, by decide, by decide, by decide⟩ (by omega)]
  simp
  rfl

/-- C6: For every schedule object (a JSON object; a Python dict cannot
hold duplicate keys, and nested objects likewise), serializing it with
`json.dumps`, wrapping the text in a Markdown code fence whose opening
fence is tagged `json` and whose closing fence is bare, and passing the
wrapped text through `_parse_json_safely` reproduces the original object
exactly. -/
theorem claim_C6_fence_roundtrip (fs : List (Str × JValue))
    (hnd : noDupKeysB (.jobj fs) = true) :
    parse_json_safely (fenceWrap (dumps (.jobj fs))) = .jobj fs := by
  unfold parse_json_safely
  simp only [fenceStrip_wrap, jsonLoads_wrap fs hnd]

theorem claim_C6_witness :
    noDupKeysB (.jobj [(lit "schedule_logic", .jstr (lit "Orbital")),
      (lit "frequency", .jnum 2),
      (lit "score", .jarr [.jobj [(lit "mass", .jnum 5), (lit "formula", .jstr (lit "A"))]])])
        = true ∧
    parse_json_safely (fenceWrap (dumps (.jobj [(lit "schedule_logic", .jstr (lit "Orbital")),
      (lit "frequency", .jnum 2),
      (lit "score", .jarr [.jobj [(lit "mass", .jnum 5), (lit "formula", .jstr (lit "A"))]])])))
      = .jobj [(lit "schedule_logic", .jstr (lit "Orbital")),
      (lit "frequency", .jnum 2),
      (lit "score", .jarr [.jobj [(lit "mass", .jnum 5), (lit "formula", .jstr (lit "A"))]])] :=
  ⟨by decide, claim_C6_fence_roundtrip _ (by decide)⟩
